import Mathlib

/-!
# Verification of the netplan diff engine (`netplan_cli/cli/state_diff.py`)

This file gives a shallow embedding, in Lean 4, of the reconciliation engine
that compares a machine's declared netplan configuration against the live
system state (`NetplanDiffState` and its helpers), and proves or refutes the
specification claims about it.

Conventions of the embedding:

* Python dictionaries become association lists (`List (String × α)`); keys are
  unique by construction in the code paths modelled here, and insertion order
  is preserved exactly as CPython preserves it.
* Python values that may be `None` become `Option`; Python truthiness on
  strings/options is made explicit through the `truthy*` helpers.
* Python sets are modelled by lists; set difference becomes `listDiff`, whose
  membership semantics agree with Python's.
* Calls into the `ipaddress` standard-library module are modelled by an
  explicit oracle (`IpModule`): a pure record of functions giving, for a
  string, the parse outcome (`none` models `ValueError`) together with the
  address family, the textual `.ip` / `.network` forms and the
  `is_link_local` predicate.  All theorems are universally quantified over
  the oracle; concrete witnesses use a small test oracle (`testIpm`) defined
  on the handful of literals they mention.
* Code that can raise is embedded in `Option` (`none` = an exception
  escaped); code that cannot raise is embedded as a total function.
-/

namespace NetplanDiff

/-- Python truthiness of an optional string: `None` and `""` are falsy. -/
def truthyStr : Option String → Option String
  | some s => if s = "" then none else some s
  | none => none

/-- Python truthiness of an optional boolean (`if cfg.get('dhcp4'):`). -/
def truthyBool (o : Option Bool) : Bool := o = some true

/-- Python truthiness filter for optional integers: `None` and `0` are falsy. -/
def truthyInt : Option Int → Option Int
  | some n => if n = 0 then none else some n
  | none => none

/-- Python truthiness filter for optional naturals: `None` and `0` are falsy. -/
def truthyNat : Option Nat → Option Nat
  | some n => if n = 0 then none else some n
  | none => none

/-- Membership of a Python optional string in a list of strings
(`x in l` where `x` may be `None`: `None` is never a member). -/
def optMem (o : Option String) (l : List String) : Bool :=
  match o with
  | some s => l.contains s
  | none => false

/-- Set difference as used on Python sets, at list level:
`listDiff a b` keeps the elements of `a` that do not occur in `b`. -/
def listDiff {α : Type} [DecidableEq α] (a b : List α) : List α :=
  a.filter (fun x => ¬ x ∈ b)

/-- Association-list lookup, modelling `dict.get`. -/
def lookupA {α : Type} (l : List (String × α)) (k : String) : Option α :=
  (l.find? (fun p => p.1 = k)).map Prod.snd

/-- Association-list insert-or-replace, modelling `d[k] = v`:
an existing key keeps its position (CPython semantics), a new key is
appended at the end. -/
def updateA {α : Type} (l : List (String × α)) (k : String) (v : α) :
    List (String × α) :=
  if l.any (fun p => p.1 = k) then
    l.map (fun p => if p.1 = k then (k, v) else p)
  else
    l ++ [(k, v)]

/-- Association-list in-place modification, modelling
`d[k].update(...)` on an existing key (a no-op on a missing key, which is
unreachable in the modelled code). -/
def modifyA {α : Type} (l : List (String × α)) (k : String) (f : α → α) :
    List (String × α) :=
  l.map (fun p => if p.1 = k then (k, f p.2) else p)

/-! ## Python `int()` and string sorting -/

/-- Digit-string parsing as Python's `int` does it after sign handling:
nonempty, decimal digits, with single underscores allowed only between
digits (`int('1_0') == 10`, `int('_1')`/`int('1_')`/`int('1__0')` raise). -/
def pyDigitsGo (acc : Nat) : List Char → Option Nat
  | [] => some acc
  | '_' :: c :: cs =>
      if c.isDigit then pyDigitsGo (acc * 10 + (c.toNat - 48)) cs else none
  | '_' :: [] => none
  | c :: cs =>
      if c.isDigit then pyDigitsGo (acc * 10 + (c.toNat - 48)) cs else none

/-- Parse a digit run (Python `int` body, no sign, no spaces). -/
def pyDigits : List Char → Option Nat
  | [] => none
  | c :: cs => if c.isDigit then pyDigitsGo (c.toNat - 48) cs else none

/-- Python's `int(s)` for a string: strip whitespace, optional sign, digit
run with underscores; `none` models the `ValueError`. -/
def pyInt (s : String) : Option Int :=
  let l := (((s.toList.dropWhile Char.isWhitespace).reverse.dropWhile
      Char.isWhitespace).reverse)
  match l with
  | '+' :: rest => (pyDigits rest).map Int.ofNat
  | '-' :: rest => (pyDigits rest).map (fun n => -(n : Int))
  | rest => (pyDigits rest).map Int.ofNat

/-- Code-point lexicographic `≤` on char lists, the order Python uses to
compare strings. -/
def charListLe : List Char → List Char → Bool
  | List.nil, _ => true
  | _ :: _, List.nil => false
  | c :: cs, d :: ds =>
      if c.toNat < d.toNat then true
      else if d.toNat < c.toNat then false
      else charListLe cs ds

/-- Python's `<=` on strings (code-point lexicographic). -/
def strLe (a b : String) : Bool := charListLe a.toList b.toList

/-- Insert into a sorted list of strings (stable, ascending). -/
def insertStr (s : String) : List String → List String
  | [] => [s]
  | x :: xs => if strLe s x then s :: x :: xs else x :: insertStr s xs

/-- Python's `sorted` on a list of strings (ascending code-point
lexicographic order; insertion sort is stable like Python's sort). -/
def sortStrings (l : List String) : List String := l.foldr insertStr []

/-! ## The `ipaddress` oracle -/

/-- IP address family, as distinguished by
`isinstance(x, ipaddress.IPv4Address)` / `IPv6Address` in the code. -/
inductive Fam : Type
  | v4
  | v6
deriving DecidableEq, Repr

/-- What the code extracts from a successfully parsed
`ipaddress.ip_interface(s)` object: the family of `.ip`, the textual forms
`str(.ip)` and `str(.network)`, and `.is_link_local`. -/
structure IpInfo : Type where
  family : Fam
  ipStr : String
  networkStr : String
  isLinkLocal : Bool
deriving DecidableEq, Repr

/-- Oracle modelling the pure functions of Python's `ipaddress` module used
by the engine.  `none` models a `ValueError` raised on an unparsable
string. -/
structure IpModule : Type where
  ipInterface : String → Option IpInfo
  ipAddressFam : String → Option Fam

/-! ## Routes

`netplan.netdef.NetplanRoute` lives in this repository's Python bindings,
outside the analyzed sources. -/

/-- Modelled from the spec: `netplan.netdef.NetplanRoute`, the normalized
route value type (§3 `Route`, §4.4): fields `to`, `via`, `from`, `metric`,
`scope`, `type`, `protocol`, address `family`, `table` id, every one
optional ("fields absent or falsy on the live record are simply omitted"),
and "two routes are equal iff all populated fields match" — structural
equality over the optional fields. -/
structure NetplanRoute : Type where
  family : Option Int := none
  to_field : Option String := none
  via : Option String := none
  from_addr : Option String := none
  metric : Option Nat := none
  scope : Option String := none
  type : Option String := none
  protocol : Option String := none
  table : Option Int := none
deriving DecidableEq, Repr

/-- `NetplanDiffState._default_tables_name_to_number`: symbolic routing
table name resolution (`/etc/iproute2/rt_tables` defaults), falling back to
Python `int()` parsing and finally to `0`. -/
def default_tables_name_to_number (name : String) : Int :=
  if name = "default" then 253
  else if name = "main" then 254
  else if name = "local" then 255
  else
    match pyInt name with
    | some v => v
    | none => 0

/-- A raw route record as found in the system snapshot
(`SystemConfigState` data): string/int fields, each possibly absent. -/
structure RawRoute : Type where
  family : Option Int := none
  to_field : Option String := none
  via : Option String := none
  from_field : Option String := none
  metric : Option Nat := none
  scope : Option String := none
  type : Option String := none
  protocol : Option String := none
  table : Option String := none
deriving DecidableEq, Repr

/-- `NetplanDiffState._system_route_to_netplan`: convert a raw system route
record into a `NetplanRoute`, setting each field only when the raw value is
truthy, and resolving the table name to a number. -/
def system_route_to_netplan (r : RawRoute) : NetplanRoute :=
  { family := truthyInt r.family
    to_field := truthyStr r.to_field
    via := truthyStr r.via
    from_addr := truthyStr r.from_field
    metric := truthyNat r.metric
    scope := truthyStr r.scope
    type := truthyStr r.type
    protocol := truthyStr r.protocol
    table := (truthyStr r.table).map default_tables_name_to_number }

/-! ## The merged full-state view (`get_full_state`) -/

/-- The `system_state` sub-dictionary of a full-state entry.  `addresses`
maps the textual `ip/prefix` form to the address's flag list. -/
structure SysStateView : Type where
  addresses : Option (List (String × List String)) := none
  nameservers : Option (List String) := none
  search : Option (List String) := none
  routes : Option (List NetplanRoute) := none
  macaddress : Option String := none
deriving DecidableEq, Repr

/-- The `netplan_state` sub-dictionary of a full-state entry. -/
structure NetplanStateView : Type where
  type : Option String := none
  dhcp4 : Option Bool := none
  dhcp6 : Option Bool := none
  addresses : Option (List (String × List String)) := none
  nameservers : Option (List String) := none
  search : Option (List String) := none
  routes : Option (List NetplanRoute) := none
  macaddress : Option String := none
deriving DecidableEq, Repr

/-- One entry of `get_full_state()['interfaces']`: the unified per-interface
view holding both sides' attributes. -/
structure FullEntry : Type where
  type : Option String := none
  id : Option String := none
  system_state : Option SysStateView := none
  netplan_state : Option NetplanStateView := none
deriving DecidableEq, Repr

/-- `config.get('system_state', {})`. -/
def sysView (cfg : FullEntry) : SysStateView := cfg.system_state.getD {}

/-- `config.get('netplan_state', {})`. -/
def npView (cfg : FullEntry) : NetplanStateView := cfg.netplan_state.getD {}

/-! ## The per-interface diff record -/

/-- One side (`system_state` or `netplan_state`) of a per-interface diff.
A Python key that is absent is `none` (or `false` for the two boolean
flags, which are only ever set to `True`). -/
structure StateReport : Type where
  missing_addresses : Option (List String) := none
  missing_nameservers : Option (List String) := none
  missing_search_domains : Option (List String) := none
  missing_routes : Option (List NetplanRoute) := none
  missing_macaddress : Option String := none
  missing_dhcp4_address : Bool := false
  missing_dhcp6_address : Bool := false
deriving DecidableEq, Repr

/-- The value of one entry of the report's `interfaces` map: exactly the
keys `name`, `system_state`, `netplan_state`
(`NetplanDiffState._create_new_iface`). -/
structure IfaceDiff : Type where
  name : String
  system_state : StateReport := {}
  netplan_state : StateReport := {}
deriving DecidableEq, Repr

/-- `NetplanDiffState._create_new_iface netdef_id interface` builds the
one-key map `{netdef_id: {'name': interface, 'system_state': {},
'netplan_state': {}}}`; we model the value, the key being carried
separately. -/
def create_new_iface (interface : String) : IfaceDiff :=
  { name := interface }

/-! ## Address analysis (`_analyze_ip_addresses`) -/

/-- The keys of the netplan side's `addresses` dict. -/
def netplanIps (cfg : FullEntry) : List String :=
  ((npView cfg).addresses.getD []).map Prod.fst

/-- The system side's `addresses` dict as a list of (address, flags). -/
def sysAddrPairs (cfg : FullEntry) : List (String × List String) :=
  (sysView cfg).addresses.getD []

/-- The keys of the system side's `addresses` dict. -/
def sysAddrKeys (cfg : FullEntry) : List String :=
  (sysAddrPairs cfg).map Prod.fst

/-- `'dhcp' not in flags and 'link' not in flags`: the address counts as
statically assigned. -/
def staticFlags (flags : List String) : Bool :=
  ¬ flags.contains "dhcp" = true ∧ ¬ flags.contains "link" = true

/-- Clear a `missing_dhcp` boolean when a `dhcp`-flagged address of the
matching family is seen. -/
def clearDhcp (fam : Fam) (flags : List String) (info : IpInfo) (m : Bool) :
    Bool :=
  if flags.contains "dhcp" = true ∧ info.family = fam then false else m

/-- The loop body of `_analyze_ip_addresses`: walk the system addresses,
parsing each (`ipaddress.ip_interface`, which can raise), collecting the
static ones (no `dhcp`/`link` flag) and clearing the `missing_dhcp4/6`
booleans when a `dhcp`-flagged address of the matching family is seen. -/
def scanSysAddrs (ipm : IpModule) :
    List (String × List String) → Bool → Bool →
    Option (List String × Bool × Bool)
  | [], m4, m6 => some ([], m4, m6)
  | (addr, flags) :: rest, m4, m6 =>
      match ipm.ipInterface addr with
      | none => none
      | some info =>
          match scanSysAddrs ipm rest (clearDhcp Fam.v4 flags info m4)
              (clearDhcp Fam.v6 flags info m6) with
          | none => none
          | some (ips, r4, r6) =>
              some (if staticFlags flags then addr :: ips else ips, r4, r6)

/-- `NetplanDiffState._analyze_ip_addresses`. -/
def analyze_ip_addresses (ipm : IpModule) (cfg : FullEntry) (d : IfaceDiff) :
    Option IfaceDiff := do
  let seed4 := truthyBool (npView cfg).dhcp4
  let seed6 := truthyBool (npView cfg).dhcp6
  let (system_ips, m4, m6) ← scanSysAddrs ipm (sysAddrPairs cfg) seed4 seed6
  let only_np := listDiff (netplanIps cfg) system_ips
  let only_sys := listDiff system_ips (netplanIps cfg)
  pure { d with
    system_state := { d.system_state with
      missing_dhcp4_address := d.system_state.missing_dhcp4_address || m4
      missing_dhcp6_address := d.system_state.missing_dhcp6_address || m6
      missing_addresses := if only_np ≠ [] then some only_np
        else d.system_state.missing_addresses }
    netplan_state := { d.netplan_state with
      missing_addresses := if only_sys ≠ [] then some only_sys
        else d.netplan_state.missing_addresses } }

/-! ## Nameserver analysis (`_analyze_nameservers`) -/

/-- The gateways of `ra`-protocol system routes
(`[r.via for r in system_routes if r.protocol == 'ra' and r.via]`). -/
def raVias (cfg : FullEntry) : List String :=
  ((sysView cfg).routes.getD []).filterMap
    (fun r => if r.protocol = some "ra" then truthyStr r.via else none)

/-- Drop from a list of nameserver strings those whose parsed family is
`fam` (`not isinstance(ipaddress.ip_address(ns), ...)`); parsing can
raise. -/
def removeFam (ipm : IpModule) (fam : Fam) :
    List String → Option (List String)
  | [] => some []
  | ns :: rest =>
      match ipm.ipAddressFam ns with
      | none => none
      | some f =>
          match removeFam ipm fam rest with
          | none => none
          | some r => some (if f = fam then r else ns :: r)

/-- The live nameserver set after the RA heuristic: every address equal to
the (truthy) gateway of an `ra`-protocol live route is dropped. -/
def systemNsAfterRa (cfg : FullEntry) : List String :=
  ((sysView cfg).nameservers.getD []).filter (fun ns => ¬ ns ∈ raVias cfg)

/-- The system nameserver set after the dynamic-DNS heuristics of
`_analyze_nameservers`: drop `ra`-gateway lookalikes, then, when the
declared list is empty, drop the families that declared DHCP would
supply (parsing each nameserver, which can raise). -/
def filteredSystemNameservers (ipm : IpModule) (cfg : FullEntry) :
    Option (List String) :=
  if (npView cfg).nameservers.getD [] = [] then
    match (if truthyBool (npView cfg).dhcp4 then
        removeFam ipm Fam.v4 (systemNsAfterRa cfg)
      else some (systemNsAfterRa cfg)) with
    | none => none
    | some s1 =>
        if truthyBool (npView cfg).dhcp6 then removeFam ipm Fam.v6 s1
        else some s1
  else some (systemNsAfterRa cfg)

/-- `NetplanDiffState._analyze_nameservers`. -/
def analyze_nameservers (ipm : IpModule) (cfg : FullEntry) (d : IfaceDiff) :
    Option IfaceDiff :=
  match filteredSystemNameservers ipm cfg with
  | none => none
  | some sys_ns =>
      some { d with
        system_state := { d.system_state with
          missing_nameservers :=
            if listDiff ((npView cfg).nameservers.getD []) sys_ns ≠ [] then
              some (listDiff ((npView cfg).nameservers.getD []) sys_ns)
            else d.system_state.missing_nameservers }
        netplan_state := { d.netplan_state with
          missing_nameservers :=
            if listDiff sys_ns ((npView cfg).nameservers.getD []) ≠ [] then
              some (listDiff sys_ns ((npView cfg).nameservers.getD []))
            else d.netplan_state.missing_nameservers } }

/-! ## Search-domain analysis (`_analyze_search_domains`) -/

/-- The system search-domain set after the heuristic of
`_analyze_search_domains`: cleared entirely when the declared list is empty
and either DHCP version is declared enabled. -/
def filteredSearchDomains (cfg : FullEntry) : List String :=
  let np_s := (npView cfg).search.getD []
  let sys_s := (sysView cfg).search.getD []
  if np_s = [] ∧ (truthyBool (npView cfg).dhcp4 ∨ truthyBool (npView cfg).dhcp6)
  then [] else sys_s

/-- `NetplanDiffState._analyze_search_domains`. -/
def analyze_search_domains (cfg : FullEntry) (d : IfaceDiff) : IfaceDiff :=
  let np_s := (npView cfg).search.getD []
  let sys_s := filteredSearchDomains cfg
  let only_np := listDiff np_s sys_s
  let only_sys := listDiff sys_s np_s
  { d with
    system_state := { d.system_state with
      missing_search_domains := if only_np ≠ [] then some only_np
        else d.system_state.missing_search_domains }
    netplan_state := { d.netplan_state with
      missing_search_domains := if only_sys ≠ [] then some only_sys
        else d.netplan_state.missing_search_domains } }

/-! ## Route analysis (`_analyze_routes` / `_filter_system_routes`) -/

/-- The checks of `_filter_system_routes` that follow the link-local check,
in source order: host-scoped local self-route, default IPv6 multicast
route, and destinations matching the interface's own networks or
addresses. -/
def route_keep_rest (localNets ownAddrs : List String) (r : NetplanRoute) :
    Bool :=
  if r.scope = some "host" ∧ r.type = some "local" ∧
      r.to_field = r.from_addr then false
  else if r.family = some 10 ∧ r.type = some "multicast" ∧
      r.to_field = some "ff00::/8" then false
  else if optMem r.to_field localNets ∨ optMem r.to_field ownAddrs then false
  else true

/-- One iteration of the `_filter_system_routes` loop: `some true` keeps
the route, `some false` discards it, `none` models the `ValueError` that
`ipaddress.ip_interface(route.to)` raises when `route.to` is `None` or
unparsable (reached only when the route passed the scope/protocol
guards and `route.to != 'default'`). -/
def route_filter_keep (ipm : IpModule) (localNets ownAddrs : List String)
    (r : NetplanRoute) : Option Bool :=
  if r.scope = some "link" then some false
  else if r.protocol = some "dhcp" ∨ r.protocol = some "ra" then some false
  else
    match r.to_field with
    | none => none
    | some s =>
        if s = "default" then some (route_keep_rest localNets ownAddrs r)
        else
          match ipm.ipInterface s with
          | none => none
          | some info =>
              if info.isLinkLocal then some false
              else some (route_keep_rest localNets ownAddrs r)

/-- The filtering loop of `_filter_system_routes` over the route list. -/
def filterKeptRoutes (ipm : IpModule) (localNets ownAddrs : List String) :
    List NetplanRoute → Option (List NetplanRoute)
  | [] => some []
  | r :: rs =>
      match route_filter_keep ipm localNets ownAddrs r with
      | none => none
      | some k =>
          match filterKeptRoutes ipm localNets ownAddrs rs with
          | none => none
          | some rest => some (if k then r :: rest else rest)

/-- Effectful map over `Option` (a list comprehension whose body can
raise), written with explicit recursion. -/
def optMapM {α β : Type} (f : α → Option β) : List α → Option (List β)
  | [] => some []
  | a :: l =>
      match f a with
      | none => none
      | some b =>
          match optMapM f l with
          | none => none
          | some r => some (b :: r)

/-- `NetplanDiffState._filter_system_routes`: compute the interface's own
networks and addresses (both parses can raise), then drop every
auto-installed route. -/
def filter_system_routes (ipm : IpModule) (system_routes : List NetplanRoute)
    (system_addresses : List String) : Option (List NetplanRoute) := do
  let localNets ← optMapM
    (fun a => (ipm.ipInterface a).map IpInfo.networkStr) system_addresses
  let ownAddrs ← optMapM
    (fun a => (ipm.ipInterface a).map IpInfo.ipStr) system_addresses
  filterKeptRoutes ipm localNets ownAddrs system_routes

/-- `NetplanDiffState._analyze_routes`. -/
def analyze_routes (ipm : IpModule) (cfg : FullEntry) (d : IfaceDiff) :
    Option IfaceDiff := do
  let np_r := (npView cfg).routes.getD []
  let sys_r := (sysView cfg).routes.getD []
  let kept ← filter_system_routes ipm sys_r (sysAddrKeys cfg)
  let only_np := listDiff np_r kept
  let only_sys := listDiff kept np_r
  pure { d with
    system_state := { d.system_state with
      missing_routes := if only_np ≠ [] then some only_np
        else d.system_state.missing_routes }
    netplan_state := { d.netplan_state with
      missing_routes := if only_sys ≠ [] then some only_sys
        else d.netplan_state.missing_routes } }

/-! ## MAC analysis (`_analyze_mac_addresses`) -/

/-- `NetplanDiffState._analyze_mac_addresses`: report a diff only when both
sides carry a (truthy) MAC and they differ, each side recording the other
side's value. -/
def analyze_mac_addresses (cfg : FullEntry) (d : IfaceDiff) : IfaceDiff :=
  match truthyStr (sysView cfg).macaddress,
      truthyStr (npView cfg).macaddress with
  | some sm, some nm =>
      if sm ≠ nm then
        { d with
          system_state := { d.system_state with
            missing_macaddress := some nm }
          netplan_state := { d.netplan_state with
            missing_macaddress := some sm } }
      else d
  | _, _ => d

/-- The analyzer chain of `get_diff`'s per-interface loop, applied to a
fresh `_create_new_iface` record. -/
def analyze_all (ipm : IpModule) (cfg : FullEntry) (d : IfaceDiff) :
    Option IfaceDiff := do
  let d1 ← analyze_ip_addresses ipm cfg d
  let d2 ← analyze_nameservers ipm cfg d1
  let d3 := analyze_search_domains cfg d2
  let d4 ← analyze_routes ipm cfg d3
  pure (analyze_mac_addresses cfg d4)

/-! ## Snapshots (the external collaborators' data) -/

/-- One element of a system interface's `addresses` list:
`{ip: {'prefix': p, 'flags': [...]}}` (`flags` defaults to `[]`). -/
structure SysAddrEntry : Type where
  ip : String
  prefixLen : Option Nat := none
  flags : List String := []
deriving DecidableEq, Repr

/-- One value of `SystemConfigState.get_data()`: the raw per-interface
system snapshot.  List-valued keys that are absent behave exactly like
empty lists downstream, so both are modelled as `[]`. -/
structure SysIfaceData : Type where
  type : Option String := none
  id : Option String := none
  addresses : List SysAddrEntry := []
  dns_addresses : List String := []
  dns_search : List String := []
  routes : List RawRoute := []
  macaddress : Option String := none
deriving DecidableEq, Repr

/-- One element of `SystemConfigState.interface_list`: a live interface's
name and optional netdef id. -/
structure SysInterface : Type where
  name : String
  netdef_id : Option String := none
deriving DecidableEq, Repr

/-- The system snapshot consumed by the engine. -/
structure SystemConfigState : Type where
  data : List (String × SysIfaceData) := []
  interface_list : List SysInterface := []
deriving DecidableEq, Repr

/-- A declared address value object (`str(addr)`, optional label and
lifetime). -/
structure NetplanAddress : Type where
  addr : String
  label : Option String := none
  lifetime : Option String := none
deriving DecidableEq, Repr

/-- One declared netdef as exposed by `NetplanConfigState.netdefs`. -/
structure NetdefConfig : Type where
  type : String
  dhcp4 : Bool := false
  dhcp6 : Bool := false
  addresses : List NetplanAddress := []
  nameserver_addresses : List String := []
  nameserver_search : List String := []
  routes : List NetplanRoute := []
  macaddress : Option String := none
deriving DecidableEq, Repr

/-- The declared snapshot consumed by the engine. -/
structure NetplanConfigState : Type where
  netdefs : List (String × NetdefConfig) := []
deriving DecidableEq, Repr

/-- Modelled from the spec: `DEVICE_TYPES` of `netplan_cli.cli.state` (not
among the analyzed sources) maps a netdef's declaration key to a display
name; `get_full_state` uses it with an `'unknown'` default.  No analyzed
behavior depends on its contents. -/
def DEVICE_TYPES : List (String × String) :=
  [("ethernets", "ethernet"), ("wifis", "wifi"), ("bridges", "bridge"),
   ("bonds", "bond"), ("vlans", "vlan"), ("tunnels", "tunnel")]

/-- `DEVICE_TYPES.get(config.type, 'unknown')`. -/
def deviceTypeDisplay (t : String) : String :=
  (lookupA DEVICE_TYPES t).getD "unknown"

/-! ## `get_full_state` -/

/-- The textual form `f'{ip}/{prefix}'` of a system address; an absent
prefix prints as Python's `None`. -/
def fullAddrStr (a : SysAddrEntry) : String :=
  a.ip ++ "/" ++ (match a.prefixLen with
    | some n => toString n
    | none => "None")

/-- The `addresses` dict of a system-side full-state entry. -/
def buildAddrDict (l : List SysAddrEntry) : List (String × List String) :=
  l.foldl (fun acc a => updateA acc (fullAddrStr a) a.flags) []

/-- The full-state entry built for one system interface (the system loop
body of `get_full_state`). -/
def sysEntryToFull (c : SysIfaceData) : FullEntry :=
  let addrs := buildAddrDict c.addresses
  { type := c.type
    id := truthyStr c.id
    system_state := some
      { addresses := if addrs ≠ [] then some addrs else none
        nameservers := if c.dns_addresses ≠ [] then some c.dns_addresses
          else none
        search := if c.dns_search ≠ [] then some c.dns_search else none
        routes := if c.routes ≠ [] then
          some (c.routes.map system_route_to_netplan) else none
        macaddress := truthyStr c.macaddress }
    netplan_state := none }

/-- The `id_to_name` map of `get_full_state`: netdef id → live interface
name, for system interfaces carrying a truthy id. -/
def id_to_name (sys : SystemConfigState) : List (String × String) :=
  sys.data.foldl (fun acc p =>
    if p.1 = "netplan-global-state" then acc
    else match truthyStr p.2.id with
      | some nid => updateA acc nid p.1
      | none => acc) []

/-- The full-state map after the system loop of `get_full_state`
(the `'netplan-global-state'` pseudo-entry is skipped). -/
def full_state_system (sys : SystemConfigState) : List (String × FullEntry) :=
  sys.data.foldl (fun acc p =>
    if p.1 = "netplan-global-state" then acc
    else updateA acc p.1 (sysEntryToFull p.2)) []

/-- The `addresses` dict of a netplan-side full-state entry:
`str(addr)` ↦ flag strings derived from a truthy label/lifetime. -/
def netplanAddrDict (l : List NetplanAddress) : List (String × List String) :=
  l.foldl (fun acc a =>
    let fl := (match truthyStr a.label with
      | some lb => ["label: " ++ lb]
      | none => []) ++
      (match truthyStr a.lifetime with
      | some lt => ["lifetime: " ++ lt]
      | none => [])
    updateA acc a.addr fl) []

/-- The `netplan_state` view built for one netdef (the netplan loop body of
`get_full_state`). -/
def netdefToView (c : NetdefConfig) : NetplanStateView :=
  { type := some (deviceTypeDisplay c.type)
    dhcp4 := some c.dhcp4
    dhcp6 := some c.dhcp6
    addresses := if c.addresses ≠ [] then some (netplanAddrDict c.addresses)
      else none
    nameservers := if c.nameserver_addresses ≠ [] then
      some c.nameserver_addresses else none
    search := if c.nameserver_search ≠ [] then some c.nameserver_search
      else none
    routes := if c.routes ≠ [] then some c.routes else none
    macaddress := truthyStr c.macaddress }

/-- The netplan loop body of `get_full_state`: merge a netdef into the
full-state map, either into the matching system entry (found through
`id_to_name`) or as a fresh entry keyed by the netdef id. -/
def applyNetdef (idx : List (String × String))
    (acc : List (String × FullEntry)) (p : String × NetdefConfig) :
    List (String × FullEntry) :=
  let view := netdefToView p.2
  match truthyStr (lookupA idx p.1) with
  | some nm => modifyA acc nm
      (fun e => { e with id := some p.1, netplan_state := some view })
  | none => updateA acc p.1 { id := some p.1, netplan_state := some view }

/-- `NetplanDiffState.get_full_state`, restricted to its `'interfaces'`
map (the only part the diff consumes). -/
def get_full_state (sys : SystemConfigState) (nps : NetplanConfigState) :
    List (String × FullEntry) :=
  nps.netdefs.foldl (applyNetdef (id_to_name sys)) (full_state_system sys)

/-! ## Missing-interface analysis (`_analyze_missing_interfaces`) -/

/-- The declared netdef ids. -/
def netdefIds (nps : NetplanConfigState) : List String :=
  nps.netdefs.map Prod.fst

/-- The truthy netdef ids carried by live interfaces. -/
def systemNetdefIds (sys : SystemConfigState) : List String :=
  sys.interface_list.filterMap (fun i => truthyStr i.netdef_id)

/-- `NetplanDiffState._analyze_missing_interfaces`: the pair
(`missing_interfaces_system`, `missing_interfaces_netplan`). -/
def analyze_missing_interfaces (sys : SystemConfigState)
    (nps : NetplanConfigState) : List String × List String :=
  let netplan_only := (netdefIds nps).filter
    (fun i => ¬ i ∈ systemNetdefIds sys)
  let netplan_only := netplan_only.filter
    (fun i => ¬ (lookupA nps.netdefs i).map NetdefConfig.type = some "wifis")
  let system_only := (sys.interface_list.filter
    (fun i => ¬ i.name = "lo" ∧ ¬ optMem i.netdef_id (netdefIds nps) = true)
    ).map SysInterface.name
  (sortStrings netplan_only, sortStrings system_only)

/-! ## `get_diff` -/

/-- The final diff report. -/
structure Report : Type where
  interfaces : List (String × IfaceDiff)
  missing_interfaces_system : List String
  missing_interfaces_netplan : List String
deriving DecidableEq, Repr

/-- The per-interface loop of `get_diff`: skip entries without a
`system_state` or without a truthy netdef id, run the analyzer chain on a
fresh iface record, and merge the result into the report's `interfaces`
map keyed by the netdef id. -/
def process_interfaces (ipm : IpModule) :
    List (String × FullEntry) → List (String × IfaceDiff) →
    Option (List (String × IfaceDiff))
  | [], acc => some acc
  | (nm, cfg) :: rest, acc =>
      if cfg.system_state = none then process_interfaces ipm rest acc
      else match truthyStr cfg.id with
        | none => process_interfaces ipm rest acc
        | some nid => do
            let d ← analyze_all ipm cfg (create_new_iface nm)
            process_interfaces ipm rest (updateA acc nid d)

/-- `NetplanDiffState.get_diff`: full state, optional restriction to one
named interface, global missing-interface analysis, then the
per-interface loop. -/
def get_diff (ipm : IpModule) (sys : SystemConfigState)
    (nps : NetplanConfigState) (filterName : Option String) :
    Option Report := do
  let full := get_full_state sys nps
  let ifaces := match truthyStr filterName with
    | some nm =>
        (match lookupA full nm with
        | some cfg => [(nm, cfg)]
        | none => [])
    | none => full
  let m := analyze_missing_interfaces sys nps
  let entries ← process_interfaces ipm ifaces []
  pure { interfaces := entries
         missing_interfaces_system := m.1
         missing_interfaces_netplan := m.2 }

/-- The truthy netdef ids of the full-state entries that the per-interface
loop processes (those with a `system_state` and a truthy id), in order. -/
def qualIds (l : List (String × FullEntry)) : List String :=
  l.filterMap (fun p =>
    if p.2.system_state = none then none else truthyStr (p.2).id)

/-- The per-interface loop of `get_diff` as a direct list construction
(no accumulator): the entries it produces when no netdef id collides. -/
def produceEntries (ipm : IpModule) :
    List (String × FullEntry) → Option (List (String × IfaceDiff))
  | [] => some []
  | (n, cfg) :: rest =>
      if cfg.system_state = none then produceEntries ipm rest
      else
        match truthyStr cfg.id with
        | none => produceEntries ipm rest
        | some nid =>
            match analyze_all ipm cfg (create_new_iface n) with
            | none => none
            | some d =>
                match produceEntries ipm rest with
                | none => none
                | some es => some ((nid, d) :: es)

/-! ## A concrete `ipaddress` oracle for witnesses and counterexamples

Its values on the literals below are exactly what Python's `ipaddress`
module computes for them. -/

/-- A concrete oracle defined on the address literals used by the
witnesses; everything else is an unparsable string (`ValueError`). -/
def testIpm : IpModule :=
  { ipInterface := fun s =>
      if s = "192.168.0.1/24" then
        some ⟨Fam.v4, "192.168.0.1", "192.168.0.0/24", false⟩
      else if s = "10.0.0.1/24" then
        some ⟨Fam.v4, "10.0.0.1", "10.0.0.0/24", false⟩
      else if s = "10.0.0.0/24" then
        some ⟨Fam.v4, "10.0.0.0", "10.0.0.0/24", false⟩
      else if s = "fe80::1/64" then
        some ⟨Fam.v6, "fe80::1", "fe80::/64", true⟩
      else if s = "fe80::/64" then
        some ⟨Fam.v6, "fe80::", "fe80::/64", true⟩
      else if s = "2001:db8::1/64" then
        some ⟨Fam.v6, "2001:db8::1", "2001:db8::/64", false⟩
      else none
    ipAddressFam := fun s =>
      if s = "192.168.0.1" then some Fam.v4
      else if s = "8.8.8.8" then some Fam.v4
      else if s = "2001:db8::53" then some Fam.v6
      else none }

/-! ## Claim-level vocabulary

Derived definitions the claim statements refer to; each is a direct
projection of the engine's definitions above. -/

/-- The family of a parsed address string (`ip_interface(a).ip`'s class). -/
def famOf (ipm : IpModule) (a : String) : Option Fam :=
  (ipm.ipInterface a).map IpInfo.family

/-- The live comparison set of `_analyze_ip_addresses`: the system
addresses that carry neither the `dhcp` nor the `link` flag (`none` when
some address string fails to parse). -/
def staticSystemIps (ipm : IpModule) (cfg : FullEntry) :
    Option (List String) :=
  (scanSysAddrs ipm (sysAddrPairs cfg) (truthyBool (npView cfg).dhcp4)
    (truthyBool (npView cfg).dhcp6)).map (fun t => t.1)

/-- A matched interface on which a live address flagged `dhcp` is also
declared on the netplan side: the address is excluded from the live
comparison set, so the declared copy lands in
`system_state.missing_addresses`. -/
def exC1 : FullEntry :=
  { netplan_state := some { addresses := some [("192.168.0.1/24", [])] }
    system_state := some { addresses := some [("192.168.0.1/24", ["dhcp"])] } }

/-- A matched interface with DHCPv4 declared and one live `dhcp`-flagged
IPv4 address (the spec's second sample scenario). -/
def exC1W : FullEntry :=
  { netplan_state := some { dhcp4 := some true }
    system_state := some { addresses := some [("192.168.0.1/24", ["dhcp"])] } }

/-- The discard condition of `_filter_system_routes` for explicit
local-network/address lists (the disjunction of the six filter checks). -/
def routeDiscardCond (ipm : IpModule) (localNets ownAddrs : List String)
    (r : NetplanRoute) : Prop :=
  r.scope = some "link" ∨
  r.protocol = some "dhcp" ∨ r.protocol = some "ra" ∨
  (∃ s, r.to_field = some s ∧ s ≠ "default" ∧
    (∃ i, ipm.ipInterface s = some i ∧ i.isLinkLocal = true)) ∨
  (r.scope = some "host" ∧ r.type = some "local" ∧
    r.to_field = r.from_addr) ∨
  (r.family = some 10 ∧ r.type = some "multicast" ∧
    r.to_field = some "ff00::/8") ∨
  (∃ s, r.to_field = some s ∧ (s ∈ localNets ∨ s ∈ ownAddrs))

/-- A live route with scope `link`, as installed by the kernel for every
configured subnet. -/
def exRoute : NetplanRoute := { scope := some "link" }

/-- A matched interface whose declared routes contain the very scope-`link`
route that is also present live: the live copy is discarded by
`_filter_system_routes`, so the declared copy lands in
`system_state.missing_routes`. -/
def exC2 : FullEntry :=
  { netplan_state := some { routes := some [exRoute] }
    system_state := some { routes := some [exRoute] } }

/-- The diff record produced for `exC2`. -/
def exC2res : IfaceDiff :=
  { name := "eth0"
    system_state := { missing_routes := some [exRoute] } }

/-- A matched interface holding one live route with no destination (`to`
unset) that passes the scope/protocol guards: `_filter_system_routes`
evaluates `ipaddress.ip_interface(None)`, which raises `ValueError`. -/
def exC3 : FullEntry :=
  { netplan_state := some {}
    system_state := some { routes := some [{ to_field := none }] } }

/-- A well-formed matched interface (parsable address, a default route)
used as the witness input for the amended C3. -/
def exC3W : FullEntry :=
  { netplan_state := some {}
    system_state := some
      { addresses := some [("192.168.0.1/24", [])]
        routes := some [{ to_field := some "default"
                          via := some "192.168.0.254" }] } }

/-- Claim C6's survival condition for a live nameserver: it is not the
(truthy) gateway of an `ra`-protocol live route, and, when the declared
nameserver list is empty, it is not of a family whose DHCP is declared
enabled. -/
def nsSurvives (ipm : IpModule) (cfg : FullEntry) (ns : String) : Prop :=
  ns ∈ (sysView cfg).nameservers.getD [] ∧
  ¬ (∃ r, r ∈ (sysView cfg).routes.getD [] ∧ r.protocol = some "ra" ∧
    truthyStr r.via = some ns) ∧
  ((npView cfg).nameservers.getD [] = [] →
    (truthyBool (npView cfg).dhcp4 = true →
      ¬ ipm.ipAddressFam ns = some Fam.v4) ∧
    (truthyBool (npView cfg).dhcp6 = true →
      ¬ ipm.ipAddressFam ns = some Fam.v6))

/-- A matched interface with one declared nameserver, two live ones, and a
live `ra` route whose gateway equals the live IPv6 nameserver. -/
def exC6 : FullEntry :=
  { netplan_state := some { nameservers := some ["8.8.8.8"] }
    system_state := some
      { nameservers := some ["192.168.0.1", "2001:db8::53"]
        routes := some [{ protocol := some "ra"
                          via := some "2001:db8::53" }] } }

/-- The diff record produced for `exC6`: the RA-gateway nameserver is
suppressed, the other live one and the declared one are mutually
missing. -/
def exC6res : IfaceDiff :=
  { name := "eth0"
    system_state := { missing_nameservers := some ["8.8.8.8"] }
    netplan_state := { missing_nameservers := some ["192.168.0.1"] } }

/-- A system snapshot for the missing-interface witness: a matched
`eth0`, the loopback, and an unmanaged `wlan1`. -/
def exC5sys : SystemConfigState :=
  { data := []
    interface_list := [⟨"eth0", some "mydev"⟩, ⟨"lo", none⟩,
      ⟨"wlan1", none⟩] }

/-- A netplan snapshot for the missing-interface witness: the matched
`mydev`, a disconnected wifi `wlan0`, and an unmatched bridge `br0`. -/
def exC5nps : NetplanConfigState :=
  { netdefs := [("mydev", { type := "ethernets" }),
                ("wlan0", { type := "wifis" }),
                ("br0", { type := "bridges" })] }

/-- A small but complete pair of snapshots: one live interface `eth0`
matched to the netdef `mydev`, with one static live address and no
declared one. -/
def exSys : SystemConfigState :=
  { data := [("eth0",
      { type := some "ethernet"
        id := some "mydev"
        addresses := [{ ip := "192.168.0.1", prefixLen := some 24 }] })]
    interface_list := [⟨"eth0", some "mydev"⟩] }

/-- The declared counterpart of `exSys`: the netdef `mydev` with nothing
declared. -/
def exNps : NetplanConfigState :=
  { netdefs := [("mydev", { type := "ethernets" })] }

/-- The report `get_diff` produces on `exSys`/`exNps`: the live-only
address shows up as missing on the netplan side. -/
def exRep : Report :=
  { interfaces := [("mydev",
      { name := "eth0"
        netplan_state := { missing_addresses := some ["192.168.0.1/24"] } })]
    missing_interfaces_system := []
    missing_interfaces_netplan := [] }

/-- The discard condition of claim C2, phrased exactly as the claim lists
it: scope `link`; protocol `dhcp` or `ra`; a link-local destination other
than the literal `default`; a host-scoped local self-route; the default
IPv6 multicast route; or a destination equal to one of the interface's own
local networks or own addresses. -/
def claimRouteDiscard (ipm : IpModule) (cfg : FullEntry) (r : NetplanRoute) :
    Prop :=
  r.scope = some "link" ∨
  r.protocol = some "dhcp" ∨ r.protocol = some "ra" ∨
  (∃ s, r.to_field = some s ∧ s ≠ "default" ∧
    (∃ i, ipm.ipInterface s = some i ∧ i.isLinkLocal = true)) ∨
  (r.scope = some "host" ∧ r.type = some "local" ∧
    r.to_field = r.from_addr) ∨
  (r.family = some 10 ∧ r.type = some "multicast" ∧
    r.to_field = some "ff00::/8") ∨
  (∃ s, r.to_field = some s ∧
    ((∃ a ∈ sysAddrKeys cfg, (ipm.ipInterface a).map IpInfo.networkStr
        = some s) ∨
     (∃ a ∈ sysAddrKeys cfg, (ipm.ipInterface a).map IpInfo.ipStr
        = some s)))

/-! ## Helper lemmas -/

theorem mem_listDiff {α : Type} [DecidableEq α] (a b : List α) (x : α) :
    x ∈ listDiff a b ↔ x ∈ a ∧ ¬ x ∈ b := by
  simp [listDiff]

theorem charListLe_total (a b : List Char) :
    charListLe a b = true ∨ charListLe b a = true := by
  induction a generalizing b with
  | nil => left; rfl
  | cons x xs ih =>
      cases b with
      | nil => right; rfl
      | cons y ys =>
          by_cases h1 : x.toNat < y.toNat
          · left; simp [charListLe, h1]
          · by_cases h2 : y.toNat < x.toNat
            · right; simp [charListLe, h1, h2]
            · have := ih ys
              simp [charListLe, h1, h2]
              exact this

theorem strLe_total (a b : String) : strLe a b = true ∨ strLe b a = true :=
  charListLe_total a.toList b.toList

theorem mem_insertStr (s x : String) (l : List String) :
    x ∈ insertStr s l ↔ x = s ∨ x ∈ l := by
  induction l with
  | nil => simp [insertStr]
  | cons y ys ih =>
      by_cases h : strLe s y = true
      · simp [insertStr, h]
      · simp [insertStr, h, ih]
        tauto

theorem mem_sortStrings (l : List String) (x : String) :
    x ∈ sortStrings l ↔ x ∈ l := by
  induction l with
  | nil => simp [sortStrings]
  | cons y ys ih =>
      simp [sortStrings] at ih ⊢
      rw [mem_insertStr]
      tauto

/-- The output of `sortStrings` is pairwise `strLe`-ordered. -/
theorem sorted_insertStr (s : String) (l : List String)
    (h : l.Pairwise (fun a b => strLe a b = true)) :
    (insertStr s l).Pairwise (fun a b => strLe a b = true) := by
  induction l with
  | nil => simp [insertStr]
  | cons y ys ih =>
      rcases List.pairwise_cons.mp h with ⟨hy, hys⟩
      by_cases hle : strLe s y = true
      · simp only [insertStr, hle, if_true]
        refine List.pairwise_cons.mpr ⟨?_, h⟩
        intro z hz
        rcases List.mem_cons.mp hz with hz | hz
        · exact hz ▸ hle
        · have hyz := hy z hz
          exact strLe_trans hle hyz
      · simp only [insertStr, hle, if_false, Bool.false_eq_true]
        refine List.pairwise_cons.mpr ⟨?_, ih hys⟩
        intro z hz
        rw [mem_insertStr] at hz
        rcases hz with rfl | hz
        · rcases strLe_total z y with h1 | h1
          · exact absurd h1 hle
          · exact h1
        · exact hy z hz
where
  strLe_trans {a b c : String} (h1 : strLe a b = true) (h2 : strLe b c = true) :
      strLe a c = true := by
    unfold strLe at *
    exact charListLe_trans h1 h2
  charListLe_trans : ∀ {a b c : List Char}, charListLe a b = true →
      charListLe b c = true → charListLe a c = true := by
    intro a
    induction a with
    | nil => intro b c _ _; rfl
    | cons x xs ih =>
        intro b c h1 h2
        cases b with
        | nil => simp [charListLe] at h1
        | cons y ys =>
            cases c with
            | nil => simp [charListLe] at h2
            | cons z zs =>
                simp only [charListLe] at h1 h2 ⊢
                by_cases hxy : x.toNat < y.toNat
                · by_cases hyz : y.toNat < z.toNat
                  · simp [Nat.lt_trans hxy hyz]
                  · by_cases hzy : z.toNat < y.toNat
                    · simp [hyz, hzy] at h2
                    · have heq : y.toNat = z.toNat := Nat.le_antisymm
                        (Nat.le_of_not_lt hzy) (Nat.le_of_not_lt hyz)
                      have hxz : x.toNat < z.toNat := heq ▸ hxy
                      simp [hxz]
                · by_cases hyx : y.toNat < x.toNat
                  · simp [hxy, hyx] at h1
                  · have hxy' : x.toNat = y.toNat := Nat.le_antisymm
                      (Nat.le_of_not_lt hyx) (Nat.le_of_not_lt hxy)
                    simp only [if_neg hxy, if_neg hyx] at h1
                    by_cases hyz : y.toNat < z.toNat
                    · have hxz : x.toNat < z.toNat := hxy' ▸ hyz
                      simp [hxz]
                    · by_cases hzy : z.toNat < y.toNat
                      · simp [hyz, hzy] at h2
                      · simp only [if_neg hyz, if_neg hzy] at h2
                        have hxz : ¬ x.toNat < z.toNat := by
                          rw [hxy']; exact hyz
                        have hzx : ¬ z.toNat < x.toNat := by
                          rw [hxy']; exact hzy
                        simp only [if_neg hxz, if_neg hzx]
                        exact ih h1 h2

theorem sorted_sortStrings (l : List String) :
    (sortStrings l).Pairwise (fun a b => strLe a b = true) := by
  induction l with
  | nil => simp [sortStrings]
  | cons y ys ih => exact sorted_insertStr y _ ih

/-! ### Lemmas about the address scan -/

theorem clearDhcp_eq_true (fam : Fam) (flags : List String) (info : IpInfo)
    (m : Bool) :
    clearDhcp fam flags info m = true ↔
      m = true ∧ ¬ (flags.contains "dhcp" = true ∧ info.family = fam) := by
  unfold clearDhcp
  split <;> simp_all

theorem staticFlags_iff (flags : List String) :
    staticFlags flags = true ↔ ¬ "dhcp" ∈ flags ∧ ¬ "link" ∈ flags := by
  simp [staticFlags]

theorem scanSysAddrs_isSome (ipm : IpModule) :
    ∀ (l : List (String × List String)) (m4 m6 : Bool),
    (scanSysAddrs ipm l m4 m6).isSome = true ↔
      ∀ p ∈ l, (ipm.ipInterface p.1).isSome = true := by
  intro l
  induction l with
  | nil => intro m4 m6; simp [scanSysAddrs]
  | cons p rest ih =>
      intro m4 m6
      obtain ⟨addr, flags⟩ := p
      simp only [scanSysAddrs]
      split
      · rename_i h1
        constructor
        · intro hc; exact absurd hc (by simp)
        · intro hall
          have := hall (addr, flags) (List.mem_cons_self _ _)
          rw [h1] at this; simp at this
      · rename_i info h1
        split
        · rename_i h2
          constructor
          · intro hc; exact absurd hc (by simp)
          · intro hall
            have h' := (ih (clearDhcp Fam.v4 flags info m4)
              (clearDhcp Fam.v6 flags info m6)).mpr
              (fun q hq => hall q (List.mem_cons_of_mem _ hq))
            rw [h2] at h'; simp at h'
        · rename_i t ips r4 r6 h2
          constructor
          · intro _ q hq
            rcases List.mem_cons.mp hq with rfl | hq'
            · simp [h1]
            · have hs : (scanSysAddrs ipm rest (clearDhcp Fam.v4 flags info m4)
                  (clearDhcp Fam.v6 flags info m6)).isSome = true := by
                rw [h2]; rfl
              exact (ih _ _).mp hs q hq'
          · intro _; rfl

theorem scanSysAddrs_spec (ipm : IpModule) :
    ∀ (l : List (String × List String)) (m4 m6 : Bool)
      (ips : List String) (r4 r6 : Bool),
    scanSysAddrs ipm l m4 m6 = some (ips, r4, r6) →
    (∀ x, x ∈ ips ↔
      ∃ fl, (x, fl) ∈ l ∧ ¬ "dhcp" ∈ fl ∧ ¬ "link" ∈ fl) ∧
    (r4 = true ↔ (m4 = true ∧
      ∀ a fl, (a, fl) ∈ l → "dhcp" ∈ fl → ¬ famOf ipm a = some Fam.v4)) ∧
    (r6 = true ↔ (m6 = true ∧
      ∀ a fl, (a, fl) ∈ l → "dhcp" ∈ fl → ¬ famOf ipm a = some Fam.v6)) := by
  intro l
  induction l with
  | nil =>
      intro m4 m6 ips r4 r6 h
      simp only [scanSysAddrs, Option.some.injEq, Prod.mk.injEq] at h
      obtain ⟨h1, h2, h3⟩ := h
      subst h1; subst h2; subst h3
      simp
  | cons p rest ih =>
      intro m4 m6 ips r4 r6 h
      obtain ⟨addr, flags⟩ := p
      simp only [scanSysAddrs] at h
      split at h
      · exact absurd h (by simp)
      · rename_i info h1
        split at h
        · exact absurd h (by simp)
        · rename_i t ips' r4' r6' h2
          simp only [Option.some.injEq, Prod.mk.injEq] at h
          obtain ⟨hips, hr4, hr6⟩ := h
          subst hips; subst hr4; subst hr6
          obtain ⟨hmem, h4, h6⟩ := ih _ _ _ _ _ h2
          refine ⟨?_, ?_, ?_⟩
          · intro x
            by_cases hsf : staticFlags flags = true
            · simp only [hsf, if_true]
              constructor
              · intro hx
                rcases List.mem_cons.mp hx with rfl | hx'
                · exact ⟨flags, List.mem_cons_self _ _,
                    (staticFlags_iff flags).mp hsf⟩
                · obtain ⟨fl, hfl, hd, hl⟩ := (hmem x).mp hx'
                  exact ⟨fl, List.mem_cons_of_mem _ hfl, hd, hl⟩
              · rintro ⟨fl, hfl, hd, hl⟩
                rcases List.mem_cons.mp hfl with heq | hfl'
                · have hx : x = addr := congrArg Prod.fst heq
                  exact hx ▸ List.mem_cons_self _ _
                · exact List.mem_cons_of_mem _
                    ((hmem x).mpr ⟨fl, hfl', hd, hl⟩)
            · simp only [hsf, if_false]
              constructor
              · intro hx
                obtain ⟨fl, hfl, hd, hl⟩ := (hmem x).mp hx
                exact ⟨fl, List.mem_cons_of_mem _ hfl, hd, hl⟩
              · rintro ⟨fl, hfl, hd, hl⟩
                rcases List.mem_cons.mp hfl with heq | hfl'
                · exfalso
                  have hfq : fl = flags := congrArg Prod.snd heq
                  subst hfq
                  exact hsf ((staticFlags_iff fl).mpr ⟨hd, hl⟩)
                · exact (hmem x).mpr ⟨fl, hfl', hd, hl⟩
          · rw [h4, clearDhcp_eq_true]
            constructor
            · rintro ⟨⟨hm4, hnc⟩, hrest⟩
              refine ⟨hm4, ?_⟩
              intro a fl hafl hd
              rcases List.mem_cons.mp hafl with heq | h'
              · have ha : a = addr := congrArg Prod.fst heq
                have hf : fl = flags := congrArg Prod.snd heq
                subst ha; subst hf
                intro hfam
                apply hnc
                refine ⟨by simpa using hd, ?_⟩
                have : some info.family = some Fam.v4 := by
                  simpa [famOf, h1] using hfam
                exact Option.some.inj this
              · exact hrest a fl h' hd
            · rintro ⟨hm4, hall⟩
              refine ⟨⟨hm4, ?_⟩, ?_⟩
              · rintro ⟨hd, hfam⟩
                have := hall addr flags (List.mem_cons_self _ _)
                  (by simpa using hd)
                exact this (by simp [famOf, h1, hfam])
              · intro a fl hafl hd
                exact hall a fl (List.mem_cons_of_mem _ hafl) hd
          · rw [h6, clearDhcp_eq_true]
            constructor
            · rintro ⟨⟨hm6, hnc⟩, hrest⟩
              refine ⟨hm6, ?_⟩
              intro a fl hafl hd
              rcases List.mem_cons.mp hafl with heq | h'
              · have ha : a = addr := congrArg Prod.fst heq
                have hf : fl = flags := congrArg Prod.snd heq
                subst ha; subst hf
                intro hfam
                apply hnc
                refine ⟨by simpa using hd, ?_⟩
                have : some info.family = some Fam.v6 := by
                  simpa [famOf, h1] using hfam
                exact Option.some.inj this
              · exact hrest a fl h' hd
            · rintro ⟨hm6, hall⟩
              refine ⟨⟨hm6, ?_⟩, ?_⟩
              · rintro ⟨hd, hfam⟩
                have := hall addr flags (List.mem_cons_self _ _)
                  (by simpa using hd)
                exact this (by simp [famOf, h1, hfam])
              · intro a fl hafl hd
                exact hall a fl (List.mem_cons_of_mem _ hafl) hd

/-- In an association list with duplicate-free keys, a key determines its
value. -/
theorem nodup_keys_eq {α β : Type} (l : List (α × β))
    (h : (l.map Prod.fst).Nodup) {k : α} {a b : β}
    (h1 : (k, a) ∈ l) (h2 : (k, b) ∈ l) : a = b := by
  induction l with
  | nil => simp at h1
  | cons p rest ih =>
      obtain ⟨k', v'⟩ := p
      simp only [List.map_cons, List.nodup_cons] at h
      obtain ⟨hk, hr⟩ := h
      rcases List.mem_cons.mp h1 with he1 | h1'
      · have hk1 : k = k' := congrArg Prod.fst he1
        have ha : a = v' := congrArg Prod.snd he1
        rcases List.mem_cons.mp h2 with he2 | h2'
        · have hb : b = v' := congrArg Prod.snd he2
          rw [ha, hb]
        · exfalso
          apply hk
          rw [← hk1]
          exact List.mem_map_of_mem Prod.fst h2'
      · rcases List.mem_cons.mp h2 with he2 | h2'
        · exfalso
          apply hk
          have hk2 : k = k' := congrArg Prod.fst he2
          rw [← hk2]
          exact List.mem_map_of_mem Prod.fst h1'
        · exact ih hr h1' h2'

/-- Computation rule for `_analyze_ip_addresses` once the address scan is
known. -/
theorem analyze_ip_addresses_eq (ipm : IpModule) (cfg : FullEntry)
    (d : IfaceDiff) (ips : List String) (r4 r6 : Bool)
    (h : scanSysAddrs ipm (sysAddrPairs cfg) (truthyBool (npView cfg).dhcp4)
      (truthyBool (npView cfg).dhcp6) = some (ips, r4, r6)) :
    analyze_ip_addresses ipm cfg d = some { d with
      system_state := { d.system_state with
        missing_dhcp4_address := d.system_state.missing_dhcp4_address || r4
        missing_dhcp6_address := d.system_state.missing_dhcp6_address || r6
        missing_addresses := if listDiff (netplanIps cfg) ips ≠ [] then
          some (listDiff (netplanIps cfg) ips)
          else d.system_state.missing_addresses }
      netplan_state := { d.netplan_state with
        missing_addresses := if listDiff ips (netplanIps cfg) ≠ [] then
          some (listDiff ips (netplanIps cfg))
          else d.netplan_state.missing_addresses } } := by
  simp [analyze_ip_addresses, h]

/-! ### Lemmas about route filtering -/

theorem optMem_iff (o : Option String) (l : List String) :
    optMem o l = true ↔ ∃ s, o = some s ∧ s ∈ l := by
  cases o <;> simp [optMem]

theorem optMem_or_iff (o : Option String) (l1 l2 : List String) :
    (optMem o l1 = true ∨ optMem o l2 = true) ↔
      ∃ s, o = some s ∧ (s ∈ l1 ∨ s ∈ l2) := by
  rw [optMem_iff, optMem_iff]
  constructor
  · rintro (⟨s, hs, h⟩ | ⟨s, hs, h⟩)
    · exact ⟨s, hs, Or.inl h⟩
    · exact ⟨s, hs, Or.inr h⟩
  · rintro ⟨s, hs, h | h⟩
    · exact Or.inl ⟨s, hs, h⟩
    · exact Or.inr ⟨s, hs, h⟩

theorem optMapM_isSome {α β : Type} (f : α → Option β) :
    ∀ l : List α, (optMapM f l).isSome = true ↔
      ∀ a ∈ l, (f a).isSome = true := by
  intro l
  induction l with
  | nil => simp [optMapM]
  | cons a rest ih =>
      simp only [optMapM]
      split
      · rename_i hf
        constructor
        · intro hc; exact absurd hc (by simp)
        · intro hall
          have := hall a (List.mem_cons_self _ _)
          rw [hf] at this; simp at this
      · rename_i b hf
        split
        · rename_i hr
          constructor
          · intro hc; exact absurd hc (by simp)
          · intro hall
            have := ih.mpr (fun q hq => hall q (List.mem_cons_of_mem _ hq))
            rw [hr] at this; simp at this
        · rename_i rs hr
          constructor
          · intro _ q hq
            rcases List.mem_cons.mp hq with rfl | hq'
            · simp [hf]
            · have hs : (optMapM f rest).isSome = true := by rw [hr]; rfl
              exact ih.mp hs q hq'
          · intro _; rfl

theorem optMapM_mem {α β : Type} (f : α → Option β) :
    ∀ (l : List α) (r : List β), optMapM f l = some r →
      ∀ x, x ∈ r ↔ ∃ a ∈ l, f a = some x := by
  intro l
  induction l with
  | nil =>
      intro r h x
      simp only [optMapM, Option.some.injEq] at h
      subst h
      simp
  | cons a rest ih =>
      intro r h x
      simp only [optMapM] at h
      split at h
      · exact absurd h (by simp)
      · rename_i b hf
        split at h
        · exact absurd h (by simp)
        · rename_i rs hr
          have h' := Option.some.inj h
          subst h'
          constructor
          · intro hx
            rcases List.mem_cons.mp hx with rfl | hx'
            · exact ⟨a, List.mem_cons_self _ _, hf⟩
            · obtain ⟨q, hq, hfq⟩ := (ih rs hr x).mp hx'
              exact ⟨q, List.mem_cons_of_mem _ hq, hfq⟩
          · rintro ⟨q, hq, hfq⟩
            rcases List.mem_cons.mp hq with rfl | hq'
            · rw [hf] at hfq
              exact Option.some.inj hfq ▸ List.mem_cons_self _ _
            · exact List.mem_cons_of_mem _ ((ih rs hr x).mpr ⟨q, hq', hfq⟩)

theorem route_keep_rest_false_iff (ln oa : List String) (r : NetplanRoute) :
    route_keep_rest ln oa r = false ↔
      ((r.scope = some "host" ∧ r.type = some "local" ∧
          r.to_field = r.from_addr) ∨
       (r.family = some 10 ∧ r.type = some "multicast" ∧
          r.to_field = some "ff00::/8") ∨
       (∃ s, r.to_field = some s ∧ (s ∈ ln ∨ s ∈ oa))) := by
  unfold route_keep_rest
  by_cases c1 : r.scope = some "host" ∧ r.type = some "local" ∧
      r.to_field = r.from_addr
  · simp [c1]
  · simp only [if_neg c1]
    by_cases c2 : r.family = some 10 ∧ r.type = some "multicast" ∧
        r.to_field = some "ff00::/8"
    · simp [c2]
    · simp only [if_neg c2]
      by_cases c3 : optMem r.to_field ln = true ∨ optMem r.to_field oa = true
      · simp only [if_pos c3]
        simp only [eq_self_iff_true, true_iff]
        exact Or.inr (Or.inr ((optMem_or_iff _ _ _).mp c3))
      · simp only [if_neg c3]
        simp only [Bool.true_eq_false, false_iff]
        rintro (h | h | h)
        · exact c1 h
        · exact c2 h
        · exact c3 ((optMem_or_iff _ _ _).mpr h)

theorem route_filter_keep_isSome_iff (ipm : IpModule) (ln oa : List String)
    (r : NetplanRoute) :
    (route_filter_keep ipm ln oa r).isSome = true ↔
      (r.scope = some "link" ∨
       r.protocol = some "dhcp" ∨ r.protocol = some "ra" ∨
       ∃ s, r.to_field = some s ∧
         (s = "default" ∨ (ipm.ipInterface s).isSome = true)) := by
  unfold route_filter_keep
  by_cases c1 : r.scope = some "link"
  · simp [c1]
  · simp only [if_neg c1]
    by_cases c2 : r.protocol = some "dhcp" ∨ r.protocol = some "ra"
    · rcases c2 with c2 | c2 <;> simp [c2]
    · simp only [if_neg c2]
      push_neg at c2
      cases hto : r.to_field with
      | none =>
          simp only [Option.isSome_none]
          constructor
          · intro hc; exact absurd hc (by simp)
          · rintro (h | h | h | ⟨s, hs, _⟩)
            · exact absurd h c1
            · exact absurd h c2.1
            · exact absurd h c2.2
            · simp at hs
      | some s =>
          by_cases hd : s = "default"
          · simp [hd, c1, c2.1, c2.2]
          · simp only [if_neg hd]
            cases hp : ipm.ipInterface s with
            | none =>
                simp only [Option.isSome_none]
                constructor
                · intro hc; exact absurd hc (by simp)
                · rintro (h | h | h | ⟨s', hs', hs2⟩)
                  · exact absurd h c1
                  · exact absurd h c2.1
                  · exact absurd h c2.2
                  · have he : s = s' := Option.some.inj hs'
                    subst he
                    rcases hs2 with h | h
                    · exact absurd h hd
                    · rw [hp] at h; simp at h
            | some info =>
                constructor
                · intro _
                  refine Or.inr (Or.inr (Or.inr ⟨s, rfl, Or.inr ?_⟩))
                  rw [hp]; rfl
                · intro _
                  by_cases hl : info.isLinkLocal = true <;> simp [hl]

theorem route_filter_keep_false_iff (ipm : IpModule) (ln oa : List String)
    (r : NetplanRoute) (k : Bool)
    (h : route_filter_keep ipm ln oa r = some k) :
    (k = false ↔ routeDiscardCond ipm ln oa r) := by
  unfold route_filter_keep at h
  unfold routeDiscardCond
  by_cases c1 : r.scope = some "link"
  · rw [if_pos c1] at h
    have hk : k = false := (Option.some.inj h).symm
    subst hk
    simp [c1]
  · rw [if_neg c1] at h
    by_cases c2 : r.protocol = some "dhcp" ∨ r.protocol = some "ra"
    · rw [if_pos c2] at h
      have hk : k = false := (Option.some.inj h).symm
      subst hk
      rcases c2 with c2 | c2 <;> simp [c2]
    · rw [if_neg c2] at h
      push_neg at c2
      cases hto : r.to_field with
      | none => rw [hto] at h; simp at h
      | some s =>
          rw [hto] at h
          dsimp only at h
          have hrr_iff := route_keep_rest_false_iff ln oa r
          rw [hto] at hrr_iff
          by_cases hd : s = "default"
          · rw [if_pos hd] at h
            have hk : route_keep_rest ln oa r = k := Option.some.inj h
            constructor
            · intro hkf
              rw [hkf] at hk
              refine Or.inr (Or.inr (Or.inr (Or.inr ?_)))
              rcases hrr_iff.mp hk with hh | hh | hh
              exacts [Or.inl hh, Or.inr (Or.inl hh), Or.inr (Or.inr hh)]
            · rintro (hh | hh | hh | ⟨s', hs', hne, _⟩ | hh | hh | hh)
              · exact absurd hh c1
              · exact absurd hh c2.1
              · exact absurd hh c2.2
              · have he : s = s' := Option.some.inj hs'
                exact absurd (he ▸ hd) hne
              · rw [← hk]
                exact hrr_iff.mpr (Or.inl hh)
              · rw [← hk]
                exact hrr_iff.mpr (Or.inr (Or.inl hh))
              · rw [← hk]
                exact hrr_iff.mpr (Or.inr (Or.inr hh))
          · rw [if_neg hd] at h
            cases hp : ipm.ipInterface s with
            | none => rw [hp] at h; simp at h
            | some info =>
                rw [hp] at h
                dsimp only at h
                by_cases hl : info.isLinkLocal = true
                · rw [if_pos hl] at h
                  have hk : k = false := (Option.some.inj h).symm
                  subst hk
                  simp only [true_iff]
                  exact Or.inr (Or.inr (Or.inr (Or.inl
                    ⟨s, rfl, hd, info, hp, hl⟩)))
                · rw [if_neg hl] at h
                  have hk : route_keep_rest ln oa r = k := Option.some.inj h
                  constructor
                  · intro hkf
                    rw [hkf] at hk
                    refine Or.inr (Or.inr (Or.inr (Or.inr ?_)))
                    rcases hrr_iff.mp hk with hh | hh | hh
                    exacts [Or.inl hh, Or.inr (Or.inl hh),
                      Or.inr (Or.inr hh)]
                  · rintro (hh | hh | hh | ⟨s', hs', hne, i', hp', hl'⟩ |
                        hh | hh | hh)
                    · exact absurd hh c1
                    · exact absurd hh c2.1
                    · exact absurd hh c2.2
                    · have he : s = s' := Option.some.inj hs'
                      subst he
                      rw [hp] at hp'
                      have he' : info = i' := Option.some.inj hp'
                      subst he'
                      exact absurd hl' hl
                    · rw [← hk]
                      exact hrr_iff.mpr (Or.inl hh)
                    · rw [← hk]
                      exact hrr_iff.mpr (Or.inr (Or.inl hh))
                    · rw [← hk]
                      exact hrr_iff.mpr (Or.inr (Or.inr hh))

theorem filterKeptRoutes_isSome (ipm : IpModule) (ln oa : List String) :
    ∀ l : List NetplanRoute, (filterKeptRoutes ipm ln oa l).isSome = true ↔
      ∀ r ∈ l, (route_filter_keep ipm ln oa r).isSome = true := by
  intro l
  induction l with
  | nil => simp [filterKeptRoutes]
  | cons r rest ih =>
      simp only [filterKeptRoutes]
      split
      · rename_i hk
        constructor
        · intro hc; exact absurd hc (by simp)
        · intro hall
          have := hall r (List.mem_cons_self _ _)
          rw [hk] at this; simp at this
      · rename_i k hk
        split
        · rename_i hr
          constructor
          · intro hc; exact absurd hc (by simp)
          · intro hall
            have := ih.mpr (fun q hq => hall q (List.mem_cons_of_mem _ hq))
            rw [hr] at this; simp at this
        · rename_i rs hr
          constructor
          · intro _ q hq
            rcases List.mem_cons.mp hq with rfl | hq'
            · simp [hk]
            · have hs : (filterKeptRoutes ipm ln oa rest).isSome = true := by
                rw [hr]; rfl
              exact ih.mp hs q hq'
          · intro _; rfl

theorem filterKeptRoutes_mem (ipm : IpModule) (ln oa : List String) :
    ∀ (l res : List NetplanRoute), filterKeptRoutes ipm ln oa l = some res →
      ∀ r, r ∈ res ↔ r ∈ l ∧ route_filter_keep ipm ln oa r = some true := by
  intro l
  induction l with
  | nil =>
      intro res h r
      simp only [filterKeptRoutes, Option.some.injEq] at h
      subst h
      simp
  | cons q rest ih =>
      intro res h r
      simp only [filterKeptRoutes] at h
      split at h
      · exact absurd h (by simp)
      · rename_i k hk
        split at h
        · exact absurd h (by simp)
        · rename_i rs hr
          have h' := Option.some.inj h
          subst h'
          cases k with
          | true =>
              rw [if_pos rfl]
              constructor
              · intro hx
                rcases List.mem_cons.mp hx with rfl | hx'
                · exact ⟨List.mem_cons_self _ _, hk⟩
                · obtain ⟨hq, hkq⟩ := (ih rs hr r).mp hx'
                  exact ⟨List.mem_cons_of_mem _ hq, hkq⟩
              · rintro ⟨hq, hkq⟩
                rcases List.mem_cons.mp hq with rfl | hq'
                · exact List.mem_cons_self _ _
                · exact List.mem_cons_of_mem _ ((ih rs hr r).mpr ⟨hq', hkq⟩)
          | false =>
              rw [if_neg (by simp)]
              constructor
              · intro hx
                obtain ⟨hq, hkq⟩ := (ih rs hr r).mp hx
                exact ⟨List.mem_cons_of_mem _ hq, hkq⟩
              · rintro ⟨hq, hkq⟩
                rcases List.mem_cons.mp hq with rfl | hq'
                · rw [hk] at hkq
                  exact absurd (Option.some.inj hkq) (by simp)
                · exact (ih rs hr r).mpr ⟨hq', hkq⟩

theorem removeFam_isSome (ipm : IpModule) (fam : Fam) :
    ∀ l : List String, (removeFam ipm fam l).isSome = true ↔
      ∀ ns ∈ l, (ipm.ipAddressFam ns).isSome = true := by
  intro l
  induction l with
  | nil => simp [removeFam]
  | cons ns rest ih =>
      simp only [removeFam]
      split
      · rename_i hf
        constructor
        · intro hc; exact absurd hc (by simp)
        · intro hall
          have := hall ns (List.mem_cons_self _ _)
          rw [hf] at this; simp at this
      · rename_i f hf
        split
        · rename_i hr
          constructor
          · intro hc; exact absurd hc (by simp)
          · intro hall
            have := ih.mpr (fun q hq => hall q (List.mem_cons_of_mem _ hq))
            rw [hr] at this; simp at this
        · rename_i rs hr
          constructor
          · intro _ q hq
            rcases List.mem_cons.mp hq with rfl | hq'
            · simp [hf]
            · have hs : (removeFam ipm fam rest).isSome = true := by
                rw [hr]; rfl
              exact ih.mp hs q hq'
          · intro _; rfl

theorem removeFam_mem (ipm : IpModule) (fam : Fam) :
    ∀ (l r : List String), removeFam ipm fam l = some r →
      ∀ x, x ∈ r ↔ x ∈ l ∧ ¬ ipm.ipAddressFam x = some fam := by
  intro l
  induction l with
  | nil =>
      intro r h x
      simp only [removeFam, Option.some.injEq] at h
      subst h
      simp
  | cons ns rest ih =>
      intro r h x
      simp only [removeFam] at h
      split at h
      · exact absurd h (by simp)
      · rename_i f hf
        split at h
        · exact absurd h (by simp)
        · rename_i rs hr
          have h' := Option.some.inj h
          subst h'
          by_cases hfe : f = fam
          · rw [if_pos hfe]
            constructor
            · intro hx
              obtain ⟨hq, hnf⟩ := (ih rs hr x).mp hx
              exact ⟨List.mem_cons_of_mem _ hq, hnf⟩
            · rintro ⟨hq, hnf⟩
              rcases List.mem_cons.mp hq with rfl | hq'
              · exfalso; apply hnf; rw [hf, hfe]
              · exact (ih rs hr x).mpr ⟨hq', hnf⟩
          · rw [if_neg hfe]
            constructor
            · intro hx
              rcases List.mem_cons.mp hx with rfl | hx'
              · refine ⟨List.mem_cons_self _ _, ?_⟩
                rw [hf]
                intro hc
                exact hfe (Option.some.inj hc)
              · obtain ⟨hq, hnf⟩ := (ih rs hr x).mp hx'
                exact ⟨List.mem_cons_of_mem _ hq, hnf⟩
            · rintro ⟨hq, hnf⟩
              rcases List.mem_cons.mp hq with rfl | hq'
              · exact List.mem_cons_self _ _
              · exact List.mem_cons_of_mem _ ((ih rs hr x).mpr ⟨hq', hnf⟩)

/-! ### Lemmas about the route analyzer as a whole -/

theorem filter_system_routes_eq (ipm : IpModule)
    (routes : List NetplanRoute) (addrs : List String)
    (kept : List NetplanRoute)
    (h : filter_system_routes ipm routes addrs = some kept) :
    ∃ ln oa,
      optMapM (fun a => (ipm.ipInterface a).map IpInfo.networkStr) addrs
        = some ln ∧
      optMapM (fun a => (ipm.ipInterface a).map IpInfo.ipStr) addrs
        = some oa ∧
      filterKeptRoutes ipm ln oa routes = some kept := by
  unfold filter_system_routes at h
  cases hln : optMapM (fun a => (ipm.ipInterface a).map IpInfo.networkStr)
      addrs with
  | none => rw [hln] at h; simp at h
  | some ln =>
      rw [hln] at h
      simp only [Option.bind_eq_bind, Option.some_bind] at h
      cases hoa : optMapM (fun a => (ipm.ipInterface a).map IpInfo.ipStr)
          addrs with
      | none => rw [hoa] at h; simp at h
      | some oa =>
          rw [hoa] at h
          simp only [Option.bind_eq_bind, Option.some_bind] at h
          exact ⟨ln, oa, rfl, rfl, h⟩

theorem filter_system_routes_isSome_iff (ipm : IpModule)
    (routes : List NetplanRoute) (addrs : List String) :
    (filter_system_routes ipm routes addrs).isSome = true ↔
      ((∀ a ∈ addrs, (ipm.ipInterface a).isSome = true) ∧
       ∀ r ∈ routes,
         (r.scope = some "link" ∨ r.protocol = some "dhcp" ∨
          r.protocol = some "ra" ∨
          ∃ s, r.to_field = some s ∧
            (s = "default" ∨ (ipm.ipInterface s).isSome = true))) := by
  unfold filter_system_routes
  cases hln : optMapM (fun a => (ipm.ipInterface a).map IpInfo.networkStr)
      addrs with
  | none =>
      simp only [Option.bind_eq_bind, Option.none_bind, Option.isSome_none]
      constructor
      · intro hc; exact absurd hc (by simp)
      · rintro ⟨hA, _⟩
        have : (optMapM (fun a => (ipm.ipInterface a).map IpInfo.networkStr)
            addrs).isSome = true :=
          (optMapM_isSome _ addrs).mpr (fun a ha => by
            simpa using hA a ha)
        rw [hln] at this; simp at this
  | some ln =>
      have hA : ∀ a ∈ addrs, (ipm.ipInterface a).isSome = true := by
        intro a ha
        have : (optMapM (fun a => (ipm.ipInterface a).map IpInfo.networkStr)
            addrs).isSome = true := by rw [hln]; rfl
        have := (optMapM_isSome _ addrs).mp this a ha
        simpa using this
      simp only [Option.bind_eq_bind, Option.some_bind]
      cases hoa : optMapM (fun a => (ipm.ipInterface a).map IpInfo.ipStr)
          addrs with
      | none =>
          exfalso
          have : (optMapM (fun a => (ipm.ipInterface a).map IpInfo.ipStr)
              addrs).isSome = true :=
            (optMapM_isSome _ addrs).mpr (fun a ha => by
              simpa using hA a ha)
          rw [hoa] at this; simp at this
      | some oa =>
          simp only [Option.bind_eq_bind, Option.some_bind]
          rw [filterKeptRoutes_isSome]
          constructor
          · intro hall
            refine ⟨hA, ?_⟩
            intro r hr
            exact (route_filter_keep_isSome_iff ipm ln oa r).mp (hall r hr)
          · rintro ⟨_, hall⟩
            intro r hr
            exact (route_filter_keep_isSome_iff ipm ln oa r).mpr (hall r hr)

/-- Computation rule for `_analyze_routes` once the filtered live set is
known. -/
theorem analyze_routes_eq (ipm : IpModule) (cfg : FullEntry) (d : IfaceDiff)
    (kept : List NetplanRoute)
    (h : filter_system_routes ipm ((sysView cfg).routes.getD [])
      (sysAddrKeys cfg) = some kept) :
    analyze_routes ipm cfg d = some { d with
      system_state := { d.system_state with
        missing_routes := if listDiff ((npView cfg).routes.getD []) kept
            ≠ [] then
          some (listDiff ((npView cfg).routes.getD []) kept)
          else d.system_state.missing_routes }
      netplan_state := { d.netplan_state with
        missing_routes := if listDiff kept ((npView cfg).routes.getD [])
            ≠ [] then
          some (listDiff kept ((npView cfg).routes.getD []))
          else d.netplan_state.missing_routes } } := by
  simp [analyze_routes, h]

/-- The bridge between the filter-level discard condition (explicit
local-network lists) and the claim-level one (existentials over the
interface's own addresses). -/
theorem discard_bridge (ipm : IpModule) (cfg : FullEntry)
    (ln oa : List String) (r : NetplanRoute)
    (hln : optMapM (fun a => (ipm.ipInterface a).map IpInfo.networkStr)
      (sysAddrKeys cfg) = some ln)
    (hoa : optMapM (fun a => (ipm.ipInterface a).map IpInfo.ipStr)
      (sysAddrKeys cfg) = some oa) :
    routeDiscardCond ipm ln oa r ↔ claimRouteDiscard ipm cfg r := by
  unfold routeDiscardCond claimRouteDiscard
  have hmln := optMapM_mem _ _ _ hln
  have hmoa := optMapM_mem _ _ _ hoa
  refine or_congr Iff.rfl (or_congr Iff.rfl (or_congr Iff.rfl
    (or_congr Iff.rfl (or_congr Iff.rfl (or_congr Iff.rfl ?_)))))
  constructor
  · rintro ⟨s, hs, hmem | hmem⟩
    · obtain ⟨a, ha, hfa⟩ := (hmln s).mp hmem
      exact ⟨s, hs, Or.inl ⟨a, ha, hfa⟩⟩
    · obtain ⟨a, ha, hfa⟩ := (hmoa s).mp hmem
      exact ⟨s, hs, Or.inr ⟨a, ha, hfa⟩⟩
  · rintro ⟨s, hs, ⟨a, ha, hfa⟩ | ⟨a, ha, hfa⟩⟩
    · exact ⟨s, hs, Or.inl ((hmln s).mpr ⟨a, ha, hfa⟩)⟩
    · exact ⟨s, hs, Or.inr ((hmoa s).mpr ⟨a, ha, hfa⟩)⟩

/-- Membership in a conditionally present difference list: the way every
analyzer records a non-empty difference set under a `missing_*` key. -/
theorem mem_if_diff {α : Type} [DecidableEq α] (a b : List α) (x : α) :
    x ∈ (if listDiff a b ≠ [] then some (listDiff a b)
      else (none : Option (List α))).getD [] ↔ x ∈ a ∧ ¬ x ∈ b := by
  by_cases h : listDiff a b = []
  · simp only [h, ne_eq, not_true_eq_false, if_false, Option.getD_none]
    simp only [List.not_mem_nil, false_iff]
    rintro ⟨hx, hnb⟩
    have hm : x ∈ listDiff a b := (mem_listDiff a b x).mpr ⟨hx, hnb⟩
    rw [h] at hm
    simp at hm
  · simp only [h, ne_eq, not_false_eq_true, if_true, Option.getD_some]
    exact mem_listDiff a b x

/-! ### Lemmas about the nameserver analyzer -/

theorem mem_raVias (cfg : FullEntry) (ns : String) :
    ns ∈ raVias cfg ↔
      ∃ r, r ∈ (sysView cfg).routes.getD [] ∧ r.protocol = some "ra" ∧
        truthyStr r.via = some ns := by
  unfold raVias
  rw [List.mem_filterMap]
  constructor
  · rintro ⟨r, hr, hcond⟩
    by_cases hp : r.protocol = some "ra"
    · rw [if_pos hp] at hcond
      exact ⟨r, hr, hp, hcond⟩
    · rw [if_neg hp] at hcond
      simp at hcond
  · rintro ⟨r, hr, hp, hv⟩
    exact ⟨r, hr, by rw [if_pos hp]; exact hv⟩

theorem mem_systemNsAfterRa (cfg : FullEntry) (ns : String) :
    ns ∈ systemNsAfterRa cfg ↔
      ns ∈ (sysView cfg).nameservers.getD [] ∧ ¬ ns ∈ raVias cfg := by
  simp [systemNsAfterRa]

theorem filteredSystemNameservers_mem (ipm : IpModule) (cfg : FullEntry)
    (out : List String)
    (h : filteredSystemNameservers ipm cfg = some out) :
    ∀ x, x ∈ out ↔
      (x ∈ systemNsAfterRa cfg ∧
        ((npView cfg).nameservers.getD [] = [] →
          (truthyBool (npView cfg).dhcp4 = true →
            ¬ ipm.ipAddressFam x = some Fam.v4) ∧
          (truthyBool (npView cfg).dhcp6 = true →
            ¬ ipm.ipAddressFam x = some Fam.v6))) := by
  intro x
  unfold filteredSystemNameservers at h
  by_cases hnp : (npView cfg).nameservers.getD [] = []
  · rw [if_pos hnp] at h
    by_cases h4 : truthyBool (npView cfg).dhcp4 = true
    · rw [if_pos h4] at h
      cases h1 : removeFam ipm Fam.v4 (systemNsAfterRa cfg) with
      | none => rw [h1] at h; simp at h
      | some s1 =>
          rw [h1] at h
          dsimp only at h
          have hs1 := removeFam_mem ipm Fam.v4 _ _ h1
          by_cases h6 : truthyBool (npView cfg).dhcp6 = true
          · rw [if_pos h6] at h
            have hs2 := removeFam_mem ipm Fam.v6 _ _ h x
            rw [hs2, hs1 x]
            constructor
            · rintro ⟨⟨hin, hn4⟩, hn6⟩
              exact ⟨hin, fun _ => ⟨fun _ => hn4, fun _ => hn6⟩⟩
            · rintro ⟨hin, hc⟩
              obtain ⟨hc4, hc6⟩ := hc hnp
              exact ⟨⟨hin, hc4 h4⟩, hc6 h6⟩
          · rw [if_neg h6] at h
            have he : s1 = out := Option.some.inj h
            subst he
            rw [hs1 x]
            constructor
            · rintro ⟨hin, hn4⟩
              exact ⟨hin, fun _ => ⟨fun _ => hn4, fun hc => absurd hc h6⟩⟩
            · rintro ⟨hin, hc⟩
              exact ⟨hin, (hc hnp).1 h4⟩
    · rw [if_neg h4] at h
      dsimp only at h
      by_cases h6 : truthyBool (npView cfg).dhcp6 = true
      · rw [if_pos h6] at h
        have hs2 := removeFam_mem ipm Fam.v6 _ _ h x
        rw [hs2]
        constructor
        · rintro ⟨hin, hn6⟩
          exact ⟨hin, fun _ => ⟨fun hc => absurd hc h4, fun _ => hn6⟩⟩
        · rintro ⟨hin, hc⟩
          exact ⟨hin, (hc hnp).2 h6⟩
      · rw [if_neg h6] at h
        have he : systemNsAfterRa cfg = out := Option.some.inj h
        subst he
        constructor
        · intro hin
          exact ⟨hin, fun _ => ⟨fun hc => absurd hc h4,
            fun hc => absurd hc h6⟩⟩
        · rintro ⟨hin, _⟩
          exact hin
  · rw [if_neg hnp] at h
    have he : systemNsAfterRa cfg = out := Option.some.inj h
    subst he
    constructor
    · intro hin
      exact ⟨hin, fun hc => absurd hc hnp⟩
    · rintro ⟨hin, _⟩
      exact hin

/-- `_analyze_mac_addresses` touches only the `missing_macaddress` keys:
every other field of both sub-records is preserved. -/
theorem analyze_mac_preserves (cfg : FullEntry) (d : IfaceDiff) :
    (analyze_mac_addresses cfg d).name = d.name ∧
    (analyze_mac_addresses cfg d).system_state.missing_addresses
      = d.system_state.missing_addresses ∧
    (analyze_mac_addresses cfg d).netplan_state.missing_addresses
      = d.netplan_state.missing_addresses ∧
    (analyze_mac_addresses cfg d).system_state.missing_nameservers
      = d.system_state.missing_nameservers ∧
    (analyze_mac_addresses cfg d).netplan_state.missing_nameservers
      = d.netplan_state.missing_nameservers ∧
    (analyze_mac_addresses cfg d).system_state.missing_search_domains
      = d.system_state.missing_search_domains ∧
    (analyze_mac_addresses cfg d).netplan_state.missing_search_domains
      = d.netplan_state.missing_search_domains ∧
    (analyze_mac_addresses cfg d).system_state.missing_routes
      = d.system_state.missing_routes ∧
    (analyze_mac_addresses cfg d).netplan_state.missing_routes
      = d.netplan_state.missing_routes ∧
    (analyze_mac_addresses cfg d).system_state.missing_dhcp4_address
      = d.system_state.missing_dhcp4_address ∧
    (analyze_mac_addresses cfg d).system_state.missing_dhcp6_address
      = d.system_state.missing_dhcp6_address := by
  unfold analyze_mac_addresses
  cases truthyStr (sysView cfg).macaddress with
  | none => simp
  | some a =>
      cases truthyStr (npView cfg).macaddress with
      | none => simp
      | some b =>
          by_cases hab : a ≠ b
          · simp [hab]
          · simp [hab]

/-- Decomposition of the full analyzer chain: when `analyze_all` succeeds
on a fresh iface record, each stage succeeded and every `missing_*` field
of the result is the conditionally-present difference list of its
category. -/
theorem analyze_all_fields (ipm : IpModule) (cfg : FullEntry) (nm : String)
    (res : IfaceDiff)
    (hres : analyze_all ipm cfg (create_new_iface nm) = some res) :
    ∃ ips r4 r6 out kept,
      scanSysAddrs ipm (sysAddrPairs cfg) (truthyBool (npView cfg).dhcp4)
        (truthyBool (npView cfg).dhcp6) = some (ips, r4, r6) ∧
      filteredSystemNameservers ipm cfg = some out ∧
      filter_system_routes ipm ((sysView cfg).routes.getD [])
        (sysAddrKeys cfg) = some kept ∧
      res.name = nm ∧
      res.system_state.missing_addresses =
        (if listDiff (netplanIps cfg) ips ≠ [] then
          some (listDiff (netplanIps cfg) ips) else none) ∧
      res.netplan_state.missing_addresses =
        (if listDiff ips (netplanIps cfg) ≠ [] then
          some (listDiff ips (netplanIps cfg)) else none) ∧
      res.system_state.missing_dhcp4_address = r4 ∧
      res.system_state.missing_dhcp6_address = r6 ∧
      res.system_state.missing_nameservers =
        (if listDiff ((npView cfg).nameservers.getD []) out ≠ [] then
          some (listDiff ((npView cfg).nameservers.getD []) out)
          else none) ∧
      res.netplan_state.missing_nameservers =
        (if listDiff out ((npView cfg).nameservers.getD []) ≠ [] then
          some (listDiff out ((npView cfg).nameservers.getD []))
          else none) ∧
      res.system_state.missing_search_domains =
        (if listDiff ((npView cfg).search.getD [])
            (filteredSearchDomains cfg) ≠ [] then
          some (listDiff ((npView cfg).search.getD [])
            (filteredSearchDomains cfg)) else none) ∧
      res.netplan_state.missing_search_domains =
        (if listDiff (filteredSearchDomains cfg)
            ((npView cfg).search.getD []) ≠ [] then
          some (listDiff (filteredSearchDomains cfg)
            ((npView cfg).search.getD [])) else none) ∧
      res.system_state.missing_routes =
        (if listDiff ((npView cfg).routes.getD []) kept ≠ [] then
          some (listDiff ((npView cfg).routes.getD []) kept) else none) ∧
      res.netplan_state.missing_routes =
        (if listDiff kept ((npView cfg).routes.getD []) ≠ [] then
          some (listDiff kept ((npView cfg).routes.getD [])) else none) := by
  cases hscan : scanSysAddrs ipm (sysAddrPairs cfg)
      (truthyBool (npView cfg).dhcp4) (truthyBool (npView cfg).dhcp6) with
  | none => simp [analyze_all, analyze_ip_addresses, hscan] at hres
  | some t =>
      obtain ⟨ips, r4, r6⟩ := t
      unfold analyze_all at hres
      rw [analyze_ip_addresses_eq ipm cfg _ ips r4 r6 hscan] at hres
      simp only [Option.bind_eq_bind, Option.some_bind] at hres
      cases hfs : filteredSystemNameservers ipm cfg with
      | none => simp [analyze_nameservers, hfs] at hres
      | some out =>
          simp only [analyze_nameservers, hfs, Option.some_bind] at hres
          cases hk : filter_system_routes ipm
              ((sysView cfg).routes.getD []) (sysAddrKeys cfg) with
          | none => simp [analyze_routes, hk] at hres
          | some kept =>
              rw [analyze_routes_eq ipm cfg _ kept hk] at hres
              simp only [Option.bind_eq_bind, Option.some_bind] at hres
              have he := Option.some.inj hres
              subst he
              refine ⟨ips, r4, r6, out, kept, rfl, rfl, rfl,
                ?_, ?_, ?_, ?_, ?_, ?_, ?_, ?_, ?_, ?_, ?_⟩ <;>
                simp [analyze_mac_preserves, analyze_search_domains,
                  create_new_iface]

/-! ### Lemmas about the missing-interface analysis -/

theorem truthyStr_eq_some (o : Option String) (s : String) :
    truthyStr o = some s ↔ o = some s ∧ s ≠ "" := by
  cases o with
  | none => simp [truthyStr]
  | some t =>
      by_cases h : t = ""
      · subst h
        simp only [truthyStr, if_pos rfl]
        constructor
        · intro hc; exact absurd hc (by simp)
        · rintro ⟨he, hne⟩
          exact absurd (Option.some.inj he).symm hne
      · simp only [truthyStr, if_neg h, Option.some.injEq]
        constructor
        · intro he
          subst he
          exact ⟨rfl, h⟩
        · rintro ⟨he, _⟩
          exact he

theorem mem_systemNetdefIds (sys : SystemConfigState) (d : String) :
    d ∈ systemNetdefIds sys ↔
      (∃ i ∈ sys.interface_list, i.netdef_id = some d) ∧ d ≠ "" := by
  unfold systemNetdefIds
  rw [List.mem_filterMap]
  constructor
  · rintro ⟨i, hi, ht⟩
    obtain ⟨hid, hne⟩ := (truthyStr_eq_some _ _).mp ht
    exact ⟨⟨i, hi, hid⟩, hne⟩
  · rintro ⟨⟨i, hi, hid⟩, hne⟩
    exact ⟨i, hi, (truthyStr_eq_some _ _).mpr ⟨hid, hne⟩⟩

theorem filter_filter' {α : Type} (p q : α → Bool) (l : List α) :
    (l.filter p).filter q = l.filter (fun a => p a && q a) := by
  induction l with
  | nil => rfl
  | cons a rest ih =>
      cases hp : p a <;> cases hq : q a <;>
        simp [List.filter_cons, hp, hq, ih]

/-! ### Lemmas about the report loop (`get_diff`) -/

theorem lookupA_mem {α : Type} (l : List (String × α)) (k : String) (v : α)
    (h : lookupA l k = some v) : (k, v) ∈ l := by
  unfold lookupA at h
  cases hf : l.find? (fun p => p.1 = k) with
  | none => rw [hf] at h; simp at h
  | some p =>
      rw [hf] at h
      simp only [Option.map_some'] at h
      have hp := List.mem_of_find?_eq_some hf
      have hk := List.find?_some hf
      simp only [decide_eq_true_eq] at hk
      have : (k, v) = p := by
        obtain ⟨a, b⟩ := p
        simp only [Option.some.injEq] at h
        simp only at hk
        rw [hk, ← h]
      rw [this]
      exact hp

theorem lookupA_eq_none {α : Type} (l : List (String × α)) (k : String)
    (h : lookupA l k = none) : ∀ v, ¬ (k, v) ∈ l := by
  intro v hv
  unfold lookupA at h
  cases hf : l.find? (fun p => p.1 = k) with
  | some p => rw [hf] at h; simp at h
  | none =>
      have := List.find?_eq_none.mp hf (k, v) hv
      simp at this

theorem mem_updateA {α : Type} (l : List (String × α)) (k : String) (v : α)
    (q : String × α) (h : q ∈ updateA l k v) : q ∈ l ∨ q = (k, v) := by
  unfold updateA at h
  by_cases ha : l.any (fun p => p.1 = k)
  · rw [if_pos ha] at h
    obtain ⟨p, hp, hpq⟩ := List.mem_map.mp h
    by_cases hpk : p.1 = k
    · rw [if_pos hpk] at hpq
      exact Or.inr hpq.symm
    · rw [if_neg hpk] at hpq
      exact Or.inl (hpq ▸ hp)
  · rw [if_neg ha] at h
    rcases List.mem_append.mp h with h' | h'
    · exact Or.inl h'
    · exact Or.inr (List.mem_singleton.mp h')

/-- Invariant propagation through the per-interface loop of `get_diff`:
every entry of the final map either was in the accumulator or is the
analyzer output of some qualifying interface of the input list. -/
theorem process_interfaces_spec (ipm : IpModule)
    (P : String × IfaceDiff → Prop) :
    ∀ (l : List (String × FullEntry)) (acc entries : List (String × IfaceDiff)),
      process_interfaces ipm l acc = some entries →
      (∀ p ∈ acc, P p) →
      (∀ nm cfg nid d, (nm, cfg) ∈ l → ¬ cfg.system_state = none →
        truthyStr cfg.id = some nid →
        analyze_all ipm cfg (create_new_iface nm) = some d →
        P (nid, d)) →
      ∀ p ∈ entries, P p := by
  intro l
  induction l with
  | nil =>
      intro acc entries h hacc _ p hp
      simp only [process_interfaces, Option.some.injEq] at h
      subst h
      exact hacc p hp
  | cons q rest ih =>
      intro acc entries h hacc hstep p hp
      obtain ⟨nm, cfg⟩ := q
      simp only [process_interfaces] at h
      by_cases hss : cfg.system_state = none
      · rw [if_pos hss] at h
        exact ih acc entries h hacc
          (fun nm' cfg' nid' d' hm => hstep nm' cfg' nid' d'
            (List.mem_cons_of_mem _ hm)) p hp
      · rw [if_neg hss] at h
        split at h
        · exact ih acc entries h hacc
            (fun nm' cfg' nid' d' hm => hstep nm' cfg' nid' d'
              (List.mem_cons_of_mem _ hm)) p hp
        · rename_i nid hid
          cases had : analyze_all ipm cfg (create_new_iface nm) with
          | none => rw [had] at h; simp at h
          | some d =>
              rw [had] at h
              simp only [Option.bind_eq_bind, Option.some_bind] at h
              refine ih _ entries h ?_
                (fun nm' cfg' nid' d' hm => hstep nm' cfg' nid' d'
                  (List.mem_cons_of_mem _ hm)) p hp
              intro q hq
              rcases mem_updateA acc nid d q hq with hq' | hq'
              · exact hacc q hq'
              · rw [hq']
                exact hstep nm cfg nid d (List.mem_cons_self _ _) hss hid
                  had

/-- Decomposition of a successful `get_diff`: the report's `interfaces`
map is the outcome of the loop over a sub-list of the full state, and the
missing-interface lists are the global analysis, independent of the
filter. -/
theorem get_diff_decompose (ipm : IpModule) (sys : SystemConfigState)
    (nps : NetplanConfigState) (f : Option String) (rep : Report)
    (h : get_diff ipm sys nps f = some rep) :
    ∃ ifaces, (∀ q ∈ ifaces, q ∈ get_full_state sys nps) ∧
      process_interfaces ipm ifaces [] = some rep.interfaces ∧
      rep.missing_interfaces_system
        = (analyze_missing_interfaces sys nps).1 ∧
      rep.missing_interfaces_netplan
        = (analyze_missing_interfaces sys nps).2 := by
  unfold get_diff at h
  cases hf : truthyStr f with
  | none =>
      rw [hf] at h
      dsimp only at h
      cases hpe : process_interfaces ipm (get_full_state sys nps) [] with
      | none => rw [hpe] at h; simp at h
      | some entries =>
          rw [hpe] at h
          simp only [Option.bind_eq_bind, Option.some_bind] at h
          have he := Option.some.inj h
          refine ⟨get_full_state sys nps, fun q hq => hq, ?_, ?_, ?_⟩ <;>
            rw [← he]
          exact hpe
  | some nm =>
      rw [hf] at h
      dsimp only at h
      cases hlk : lookupA (get_full_state sys nps) nm with
      | none =>
          rw [hlk] at h
          dsimp only at h
          cases hpe : process_interfaces ipm
              ([] : List (String × FullEntry)) [] with
          | none => rw [hpe] at h; simp at h
          | some entries =>
              rw [hpe] at h
              simp only [Option.bind_eq_bind, Option.some_bind] at h
              have he := Option.some.inj h
              refine ⟨[], fun q hq => absurd hq (by simp), ?_, ?_, ?_⟩ <;>
                rw [← he]
              exact hpe
      | some cfg =>
          rw [hlk] at h
          dsimp only at h
          cases hpe : process_interfaces ipm [(nm, cfg)] [] with
          | none => rw [hpe] at h; simp at h
          | some entries =>
              rw [hpe] at h
              simp only [Option.bind_eq_bind, Option.some_bind] at h
              have he := Option.some.inj h
              refine ⟨[(nm, cfg)], ?_, ?_, ?_, ?_⟩
              · intro q hq
                rw [List.mem_singleton.mp hq]
                exact lookupA_mem _ _ _ hlk
              all_goals rw [← he]
              exact hpe

/-- A conditionally-present difference list is never the key holding an
empty list. -/
theorem if_diff_ne_some_nil {α : Type} [DecidableEq α] (a b : List α) :
    ¬ (if listDiff a b ≠ [] then some (listDiff a b)
      else (none : Option (List α))) = some [] := by
  by_cases h : listDiff a b = [] <;> simp [h]

/-! ### Lemmas for the filter-frame property of `get_diff` -/

theorem updateA_keys {α : Type} (l : List (String × α)) (k : String) (v : α) :
    (updateA l k v).map Prod.fst =
      if l.any (fun p => p.1 = k) then l.map Prod.fst
      else l.map Prod.fst ++ [k] := by
  unfold updateA
  by_cases h : l.any (fun p => p.1 = k)
  · rw [if_pos h, if_pos h, List.map_map]
    apply List.map_congr_left
    intro p _
    by_cases hpk : p.1 = k
    · simp [Function.comp, hpk]
    · simp [Function.comp, hpk]
  · rw [if_neg h, if_neg h, List.map_append]
    rfl

theorem updateA_keys_nodup {α : Type} (l : List (String × α)) (k : String)
    (v : α) (h : (l.map Prod.fst).Nodup) :
    ((updateA l k v).map Prod.fst).Nodup := by
  rw [updateA_keys]
  by_cases ha : l.any (fun p => p.1 = k)
  · rw [if_pos ha]; exact h
  · rw [if_neg ha]
    rw [List.nodup_append]
    refine ⟨h, List.nodup_singleton _, ?_⟩
    intro a hal hak
    rw [List.mem_singleton] at hak
    subst hak
    apply ha
    rw [List.any_eq_true]
    obtain ⟨p, hp, hfst⟩ := List.mem_map.mp hal
    exact ⟨p, hp, by simp [hfst]⟩

theorem modifyA_keys {α : Type} (l : List (String × α)) (k : String)
    (f : α → α) : (modifyA l k f).map Prod.fst = l.map Prod.fst := by
  unfold modifyA
  rw [List.map_map]
  apply List.map_congr_left
  intro p _
  by_cases hpk : p.1 = k
  · simp [Function.comp, hpk]
  · simp [Function.comp, hpk]

theorem updateA_not_mem {α : Type} (l : List (String × α)) (k : String)
    (v : α) (h : ¬ k ∈ l.map Prod.fst) : updateA l k v = l ++ [(k, v)] := by
  unfold updateA
  rw [if_neg]
  intro ha
  rw [List.any_eq_true] at ha
  obtain ⟨p, hp, hpk⟩ := ha
  simp only [decide_eq_true_eq] at hpk
  exact h (hpk ▸ List.mem_map_of_mem Prod.fst hp)

/-- The keys of the full-state map are pairwise distinct (it is built as a
Python dict). -/
theorem get_full_state_keys_nodup (sys : SystemConfigState)
    (nps : NetplanConfigState) :
    ((get_full_state sys nps).map Prod.fst).Nodup := by
  have h1 : ∀ (ds : List (String × SysIfaceData))
      (acc : List (String × FullEntry)), (acc.map Prod.fst).Nodup →
      ((ds.foldl (fun acc p => if p.1 = "netplan-global-state" then acc
        else updateA acc p.1 (sysEntryToFull p.2)) acc).map Prod.fst).Nodup := by
    intro ds
    induction ds with
    | nil => intro acc h; exact h
    | cons p rest ih =>
        intro acc h
        simp only [List.foldl_cons]
        by_cases hp : p.1 = "netplan-global-state"
        · rw [if_pos hp]; exact ih acc h
        · rw [if_neg hp]; exact ih _ (updateA_keys_nodup _ _ _ h)
  have h2 : ∀ (nds : List (String × NetdefConfig))
      (acc : List (String × FullEntry)), (acc.map Prod.fst).Nodup →
      ((nds.foldl (applyNetdef (id_to_name sys)) acc).map Prod.fst).Nodup := by
    intro nds
    induction nds with
    | nil => intro acc h; exact h
    | cons p rest ih =>
        intro acc h
        simp only [List.foldl_cons]
        apply ih
        unfold applyNetdef
        cases truthyStr (lookupA (id_to_name sys) p.1) with
        | some nm =>
            dsimp only
            rw [modifyA_keys]
            exact h
        | none =>
            dsimp only
            exact updateA_keys_nodup _ _ _ h
  unfold get_full_state
  exact h2 _ _ (by unfold full_state_system; exact h1 _ _ (by simp))

/-- With pairwise-distinct qualifying ids disjoint from the accumulator,
the `get_diff` loop appends the `produceEntries` list to the
accumulator. -/
theorem process_interfaces_eq_append (ipm : IpModule) :
    ∀ (l : List (String × FullEntry)) (acc : List (String × IfaceDiff)),
      (qualIds l).Nodup →
      (∀ i ∈ qualIds l, ¬ i ∈ acc.map Prod.fst) →
      process_interfaces ipm l acc =
        (produceEntries ipm l).map (fun es => acc ++ es) := by
  intro l
  induction l with
  | nil => intro acc _ _; simp [process_interfaces, produceEntries]
  | cons q rest ih =>
      intro acc hnd hdisj
      obtain ⟨nm, cfg⟩ := q
      simp only [process_interfaces, produceEntries]
      by_cases hss : cfg.system_state = none
      · rw [if_pos hss, if_pos hss]
        have hq : qualIds ((nm, cfg) :: rest) = qualIds rest := by
          simp [qualIds, List.filterMap_cons, hss]
        rw [hq] at hnd hdisj
        exact ih acc hnd hdisj
      · rw [if_neg hss, if_neg hss]
        cases hid : truthyStr cfg.id with
        | none =>
            dsimp only
            have hq : qualIds ((nm, cfg) :: rest) = qualIds rest := by
              simp [qualIds, List.filterMap_cons, hss, hid]
            rw [hq] at hnd hdisj
            exact ih acc hnd hdisj
        | some nid =>
            dsimp only
            have hq : qualIds ((nm, cfg) :: rest) = nid :: qualIds rest := by
              simp [qualIds, List.filterMap_cons, hss, hid]
            rw [hq] at hnd hdisj
            rw [List.nodup_cons] at hnd
            obtain ⟨hnid, hnd'⟩ := hnd
            cases had : analyze_all ipm cfg (create_new_iface nm) with
            | none => simp
            | some d =>
                simp only [Option.bind_eq_bind, Option.some_bind]
                have hupd : updateA acc nid d = acc ++ [(nid, d)] :=
                  updateA_not_mem acc nid d
                    (hdisj nid (List.mem_cons_self _ _))
                rw [hupd]
                have hdisj' : ∀ i ∈ qualIds rest,
                    ¬ i ∈ (acc ++ [(nid, d)]).map Prod.fst := by
                  intro i hi
                  rw [List.map_append, List.mem_append]
                  rintro (hc | hc)
                  · exact hdisj i (List.mem_cons_of_mem _ hi) hc
                  · rw [List.map_singleton, List.mem_singleton] at hc
                    subst hc
                    exact hnid hi
                rw [ih (acc ++ [(nid, d)]) hnd' hdisj']
                cases hpr : produceEntries ipm rest with
                | none => simp
                | some es => simp

/-- Every entry produced by the loop corresponds to a qualifying input
interface whose key is the entry value's `name`. -/
theorem produceEntries_names (ipm : IpModule) :
    ∀ (l : List (String × FullEntry)) (es : List (String × IfaceDiff)),
      produceEntries ipm l = some es →
      ∀ p ∈ es, ∃ cfg, ((p.2).name, cfg) ∈ l ∧
        ¬ cfg.system_state = none ∧ truthyStr cfg.id = some p.1 ∧
        analyze_all ipm cfg (create_new_iface (p.2).name) = some p.2 := by
  intro l
  induction l with
  | nil =>
      intro es h p hp
      simp only [produceEntries, Option.some.injEq] at h
      subst h
      simp at hp
  | cons q rest ih =>
      intro es h p hp
      obtain ⟨nm, cfg⟩ := q
      simp only [produceEntries] at h
      by_cases hss : cfg.system_state = none
      · rw [if_pos hss] at h
        obtain ⟨cfg', hm, hq1, hq2, hq3⟩ := ih es h p hp
        exact ⟨cfg', List.mem_cons_of_mem _ hm, hq1, hq2, hq3⟩
      · rw [if_neg hss] at h
        cases hid : truthyStr cfg.id with
        | none =>
            rw [hid] at h
            dsimp only at h
            obtain ⟨cfg', hm, hq1, hq2, hq3⟩ := ih es h p hp
            exact ⟨cfg', List.mem_cons_of_mem _ hm, hq1, hq2, hq3⟩
        | some nid =>
            rw [hid] at h
            dsimp only at h
            cases had : analyze_all ipm cfg (create_new_iface nm) with
            | none => rw [had] at h; simp at h
            | some d =>
                rw [had] at h
                dsimp only at h
                cases hpr : produceEntries ipm rest with
                | none => rw [hpr] at h; simp at h
                | some es' =>
                    rw [hpr] at h
                    dsimp only at h
                    have he := Option.some.inj h
                    subst he
                    rcases List.mem_cons.mp hp with rfl | hp'
                    · have hname : d.name = nm := by
                        obtain ⟨_, _, _, _, _, _, _, _, hname, _⟩ :=
                          analyze_all_fields ipm cfg nm d had
                        exact hname
                      refine ⟨cfg, ?_, hss, hid, ?_⟩
                      · rw [hname]
                        exact List.mem_cons_self _ _
                      · rw [hname]
                        exact had
                    · obtain ⟨cfg', hm, hq1, hq2, hq3⟩ :=
                        ih es' hpr p hp'
                      exact ⟨cfg', List.mem_cons_of_mem _ hm, hq1, hq2, hq3⟩

/-- If an interface name holds no key of the processed list, no produced
entry carries it. -/
theorem produceEntries_filter_none (ipm : IpModule)
    (l : List (String × FullEntry)) (es : List (String × IfaceDiff))
    (nm : String) (h : produceEntries ipm l = some es)
    (hnm : ∀ cfg : FullEntry, ¬ (nm, cfg) ∈ l) :
    es.filter (fun p => (p.2).name = nm) = [] := by
  apply List.filter_eq_nil_iff.mpr
  intro p hp
  obtain ⟨cfg', hm, _, _, _⟩ := produceEntries_names ipm l es h p hp
  simp only [decide_eq_true_eq]
  intro hc
  rw [hc] at hm
  exact hnm cfg' hm

/-- In a successful run of the loop, every qualifying input interface's
analyzer chain succeeded. -/
theorem produceEntries_success (ipm : IpModule) :
    ∀ (l : List (String × FullEntry)) (es : List (String × IfaceDiff)),
      produceEntries ipm l = some es →
      ∀ nm cfg, (nm, cfg) ∈ l →
        ∃ d, analyze_all ipm cfg (create_new_iface nm) = some d ∨
          (cfg.system_state = none ∨ truthyStr cfg.id = none) := by
  intro l
  induction l with
  | nil => intro es _ nm cfg hm; simp at hm
  | cons q rest ih =>
      intro es h nm cfg hm
      obtain ⟨n, hcfg⟩ := q
      simp only [produceEntries] at h
      by_cases hss : hcfg.system_state = none
      · rw [if_pos hss] at h
        rcases List.mem_cons.mp hm with he | hm'
        · have h1 : cfg = hcfg := congrArg Prod.snd he
          exact ⟨create_new_iface nm, Or.inr (Or.inl (h1 ▸ hss))⟩
        · exact ih es h nm cfg hm'
      · rw [if_neg hss] at h
        cases hid : truthyStr hcfg.id with
        | none =>
            rw [hid] at h
            dsimp only at h
            rcases List.mem_cons.mp hm with he | hm'
            · have h1 : cfg = hcfg := congrArg Prod.snd he
              exact ⟨create_new_iface nm, Or.inr (Or.inr (h1 ▸ hid))⟩
            · exact ih es h nm cfg hm'
        | some nid =>
            rw [hid] at h
            dsimp only at h
            cases had : analyze_all ipm hcfg (create_new_iface n) with
            | none => rw [had] at h; simp at h
            | some d =>
                rw [had] at h
                dsimp only at h
                cases hpr : produceEntries ipm rest with
                | none => rw [hpr] at h; simp at h
                | some es' =>
                    rcases List.mem_cons.mp hm with he | hm'
                    · have h1 : cfg = hcfg := congrArg Prod.snd he
                      have h2 : nm = n := congrArg Prod.fst he
                      subst h1; subst h2
                      exact ⟨d, Or.inl had⟩
                    · exact ih es' hpr nm cfg hm'

/-- Restricting the produced entries to one interface name yields exactly
what the loop produces on that one interface. -/
theorem produceEntries_filter (ipm : IpModule) :
    ∀ (l : List (String × FullEntry)) (es : List (String × IfaceDiff))
      (nm : String) (cfg : FullEntry) (es' : List (String × IfaceDiff)),
      produceEntries ipm l = some es →
      (l.map Prod.fst).Nodup →
      (nm, cfg) ∈ l →
      produceEntries ipm [(nm, cfg)] = some es' →
      es.filter (fun p => (p.2).name = nm) = es' := by
  intro l
  induction l with
  | nil => intro es nm cfg es' _ _ hm _; simp at hm
  | cons q rest ih =>
      intro es nm cfg es' h hnodup hm hsing
      obtain ⟨n, hcfg⟩ := q
      simp only [List.map_cons, List.nodup_cons] at hnodup
      obtain ⟨hnotin, hnodup'⟩ := hnodup
      simp only [produceEntries] at h
      by_cases hss : hcfg.system_state = none
      · rw [if_pos hss] at h
        rcases List.mem_cons.mp hm with he | hm'
        · have h1 : cfg = hcfg := congrArg Prod.snd he
          have h2 : nm = n := congrArg Prod.fst he
          subst h1; subst h2
          simp only [produceEntries, if_pos hss, Option.some.injEq]
            at hsing
          rw [← hsing]
          exact produceEntries_filter_none ipm rest es nm h
            (fun c hc => hnotin (List.mem_map_of_mem Prod.fst hc))
        · exact ih es nm cfg es' h hnodup' hm' hsing
      · rw [if_neg hss] at h
        cases hid : truthyStr hcfg.id with
        | none =>
            rw [hid] at h
            dsimp only at h
            rcases List.mem_cons.mp hm with he | hm'
            · have h1 : cfg = hcfg := congrArg Prod.snd he
              have h2 : nm = n := congrArg Prod.fst he
              subst h1; subst h2
              simp only [produceEntries, if_neg hss, hid,
                Option.some.injEq] at hsing
              rw [← hsing]
              exact produceEntries_filter_none ipm rest es nm h
                (fun c hc => hnotin (List.mem_map_of_mem Prod.fst hc))
            · exact ih es nm cfg es' h hnodup' hm' hsing
        | some nid =>
            rw [hid] at h
            dsimp only at h
            cases had : analyze_all ipm hcfg (create_new_iface n) with
            | none => rw [had] at h; simp at h
            | some d =>
                rw [had] at h
                dsimp only at h
                cases hpr : produceEntries ipm rest with
                | none => rw [hpr] at h; simp at h
                | some esr =>
                    rw [hpr] at h
                    dsimp only at h
                    have he := Option.some.inj h
                    subst he
                    have hname : d.name = n := by
                      obtain ⟨_, _, _, _, _, _, _, _, hname, _⟩ :=
                        analyze_all_fields ipm hcfg n d had
                      exact hname
                    rcases List.mem_cons.mp hm with heq | hm'
                    · have h1 : cfg = hcfg := congrArg Prod.snd heq
                      have h2 : nm = n := congrArg Prod.fst heq
                      subst h1; subst h2
                      simp only [produceEntries, if_neg hss, hid, had,
                        Option.some.injEq] at hsing
                      rw [← hsing]
                      have hcond : (fun p => decide ((p.2).name = nm))
                          ((nid, d)) = true := by
                        simp [hname]
                      rw [List.filter_cons, if_pos hcond]
                      congr 1
                      exact produceEntries_filter_none ipm rest esr nm hpr
                        (fun c hc =>
                          hnotin (List.mem_map_of_mem Prod.fst hc))
                    · have hnenm : ¬ n = nm := by
                        intro hc
                        subst hc
                        exact hnotin (List.mem_map_of_mem Prod.fst hm')
                      have hcond : ¬ (fun p => decide ((p.2).name = nm))
                          ((nid, d)) = true := by
                        simp [hname]
                        intro hc
                        exact hnenm hc
                      rw [List.filter_cons, if_neg hcond]
                      exact ih esr nm cfg es' hpr hnodup' hm' hsing

/-! Sanity checks: the sample scenarios of the specification (§8). -/

example :
    analyze_ip_addresses testIpm
      { netplan_state := some
          { dhcp4 := some false
            dhcp6 := some false
            addresses := some [("192.168.0.1/24", [])] }
        system_state := some {} }
      (create_new_iface "eth0") =
    some { name := "eth0"
           system_state := { missing_addresses := some ["192.168.0.1/24"] } } :=
  by rfl

example :
    analyze_ip_addresses testIpm
      { netplan_state := some { dhcp4 := some true }
        system_state := some { addresses := some [("192.168.0.1/24", ["dhcp"])] } }
      (create_new_iface "eth0") =
    some (create_new_iface "eth0") := by rfl

example :
    analyze_routes testIpm
      { netplan_state := some {}
        system_state := some { routes := some [{ to_field := some "fe80::/64" }] } }
      (create_new_iface "eth0") = some (create_new_iface "eth0") := by rfl

example : analyze_missing_interfaces exC5sys exC5nps
    = (["br0"], ["wlan1"]) := by rfl

example : get_diff testIpm exSys exNps none = some exRep := by rfl

example : default_tables_name_to_number "main" = 254 := by rfl
example : default_tables_name_to_number "1000" = 1000 := by rfl
example : default_tables_name_to_number "garbage" = 0 := by rfl
example : default_tables_name_to_number " 42 " = 42 := by rfl
example : default_tables_name_to_number "-7" = -7 := by rfl

/-! ## Claim C4 — routing-table name resolution -/

/-- C4: routing-table name resolution returns 253 for `"default"`, 254 for
`"main"`, 255 for `"local"`, the parsed integer value for any other string
that parses as a Python integer (e.g. `"1000"` yields 1000), and 0 for any
other input; it is a total function (of type `String → Int`, so it never
raises). -/
theorem C4_table_name_resolution :
    default_tables_name_to_number "default" = 253 ∧
    default_tables_name_to_number "main" = 254 ∧
    default_tables_name_to_number "local" = 255 ∧
    (∀ s : String, s ≠ "default" → s ≠ "main" → s ≠ "local" →
      ∀ v : Int, pyInt s = some v → default_tables_name_to_number s = v) ∧
    (∀ s : String, s ≠ "default" → s ≠ "main" → s ≠ "local" →
      pyInt s = none → default_tables_name_to_number s = 0) ∧
    default_tables_name_to_number "1000" = 1000 := by
  refine ⟨rfl, rfl, rfl, ?_, ?_, rfl⟩
  · intro s h1 h2 h3 v hv
    simp [default_tables_name_to_number, h1, h2, h3, hv]
  · intro s h1 h2 h3 hv
    simp [default_tables_name_to_number, h1, h2, h3, hv]

/-- Witness for C4 at the concrete inputs `" 42 "` (parses to 42) and
`"1_x"` (unparsable, resolves to 0). -/
theorem C4_table_name_resolution_witness :
    default_tables_name_to_number " 42 " = 42 ∧
    default_tables_name_to_number "1_x" = 0 :=
  ⟨C4_table_name_resolution.2.2.2.1 " 42 " (by decide) (by decide) (by decide)
      42 (by rfl),
    C4_table_name_resolution.2.2.2.2.1 "1_x" (by decide) (by decide)
      (by decide) (by rfl)⟩

/-! ## Claim C7 — MAC-address mirroring -/

/-- C7: for a matched interface, a MAC diff is produced exactly when both
the live and the declared side carry a (truthy) MAC address and the two
differ; then `system_state.missing_macaddress` is the declared MAC and
`netplan_state.missing_macaddress` the live MAC; when either MAC is absent
or they are equal, neither key is set. -/
theorem C7_mac_mirroring (cfg : FullEntry) (nm : String) :
    (∀ a b : String, truthyStr (sysView cfg).macaddress = some a →
      truthyStr (npView cfg).macaddress = some b → a ≠ b →
      (analyze_mac_addresses cfg (create_new_iface nm)).system_state.missing_macaddress
        = some b ∧
      (analyze_mac_addresses cfg (create_new_iface nm)).netplan_state.missing_macaddress
        = some a) ∧
    ((truthyStr (sysView cfg).macaddress = none ∨
      truthyStr (npView cfg).macaddress = none ∨
      truthyStr (sysView cfg).macaddress = truthyStr (npView cfg).macaddress) →
      (analyze_mac_addresses cfg (create_new_iface nm)).system_state.missing_macaddress
        = none ∧
      (analyze_mac_addresses cfg (create_new_iface nm)).netplan_state.missing_macaddress
        = none) := by
  constructor
  · intro a b ha hb hab
    simp [analyze_mac_addresses, ha, hb, hab]
  · intro h
    rcases h with h | h | h
    · simp [analyze_mac_addresses, h, create_new_iface]
    · cases hs : truthyStr (sysView cfg).macaddress with
      | none => simp [analyze_mac_addresses, hs, create_new_iface]
      | some a => simp [analyze_mac_addresses, hs, h, create_new_iface]
    · cases hs : truthyStr (sysView cfg).macaddress with
      | none => simp [analyze_mac_addresses, hs, create_new_iface]
      | some a =>
          cases hn : truthyStr (npView cfg).macaddress with
          | none => simp [analyze_mac_addresses, hs, hn, create_new_iface]
          | some b =>
              have : a = b := by rw [hs, hn] at h; exact Option.some.inj h
              simp [analyze_mac_addresses, hs, hn, this, create_new_iface]

/-- Witness for C7 on a concrete interface with differing MACs on the two
sides. -/
theorem C7_mac_mirroring_witness :
    (analyze_mac_addresses
      { system_state := some { macaddress := some "aa:bb:cc:dd:ee:ff" }
        netplan_state := some { macaddress := some "00:11:22:33:44:55" } }
      (create_new_iface "eth0")).system_state.missing_macaddress
        = some "00:11:22:33:44:55" ∧
    (analyze_mac_addresses
      { system_state := some { macaddress := some "aa:bb:cc:dd:ee:ff" }
        netplan_state := some { macaddress := some "00:11:22:33:44:55" } }
      (create_new_iface "eth0")).netplan_state.missing_macaddress
        = some "aa:bb:cc:dd:ee:ff" :=
  (C7_mac_mirroring
    { system_state := some { macaddress := some "aa:bb:cc:dd:ee:ff" }
      netplan_state := some { macaddress := some "00:11:22:33:44:55" } }
    "eth0").1 "aa:bb:cc:dd:ee:ff" "00:11:22:33:44:55" (by rfl) (by rfl)
    (by decide)

/-! ## Claim C1 — address analysis -/

/-- C1 counterexample: on `exC1` the live address `192.168.0.1/24` carries
the `dhcp` flag, so it is excluded from the live comparison set — yet it
does appear in a `missing_addresses` list (namely
`system_state.missing_addresses`, because the same address string is also
declared), refuting the claim that such an address never appears in any
`missing_addresses` list. -/
theorem C1_counterexample :
    ("192.168.0.1/24", ["dhcp"]) ∈ sysAddrPairs exC1 ∧
    (analyze_ip_addresses testIpm exC1 (create_new_iface "eth0")).map
      (fun d => d.system_state.missing_addresses)
      = some (some ["192.168.0.1/24"]) := by
  constructor
  · simp [exC1, sysAddrPairs, sysView]
  · rfl

/-- C1 (amended): for every matched interface, `_analyze_ip_addresses`
excludes every live address whose flag list contains `dhcp` or `link` from
the live comparison set, so such an address never appears in
`netplan_state.missing_addresses` (it can still appear in
`system_state.missing_addresses` when the same address string is also
declared, see `C1_counterexample`); and it records
`system_state.missing_dhcp4_address = True` exactly when the declared
config enables dhcp4 and no live IPv4 address carries the `dhcp` flag, and
likewise `missing_dhcp6_address` for dhcp6/IPv6. -/
theorem C1_address_analysis (ipm : IpModule) (cfg : FullEntry) (nm : String)
    (res : IfaceDiff)
    (hnodup : ((sysAddrPairs cfg).map Prod.fst).Nodup)
    (hres : analyze_ip_addresses ipm cfg (create_new_iface nm) = some res) :
    (∀ addr fl, (addr, fl) ∈ sysAddrPairs cfg →
      ("dhcp" ∈ fl ∨ "link" ∈ fl) →
      (∀ ips, staticSystemIps ipm cfg = some ips → ¬ addr ∈ ips) ∧
      ¬ addr ∈ res.netplan_state.missing_addresses.getD []) ∧
    (res.system_state.missing_dhcp4_address = true ↔
      (truthyBool (npView cfg).dhcp4 = true ∧
        ∀ addr fl, (addr, fl) ∈ sysAddrPairs cfg → "dhcp" ∈ fl →
          ¬ famOf ipm addr = some Fam.v4)) ∧
    (res.system_state.missing_dhcp6_address = true ↔
      (truthyBool (npView cfg).dhcp6 = true ∧
        ∀ addr fl, (addr, fl) ∈ sysAddrPairs cfg → "dhcp" ∈ fl →
          ¬ famOf ipm addr = some Fam.v6)) := by
  cases hscan : scanSysAddrs ipm (sysAddrPairs cfg)
      (truthyBool (npView cfg).dhcp4) (truthyBool (npView cfg).dhcp6) with
  | none => simp [analyze_ip_addresses, hscan] at hres
  | some t =>
      obtain ⟨ips, r4, r6⟩ := t
      rw [analyze_ip_addresses_eq ipm cfg _ ips r4 r6 hscan] at hres
      have hres' := Option.some.inj hres
      subst hres'
      obtain ⟨hmem, h4, h6⟩ := scanSysAddrs_spec ipm _ _ _ _ _ _ hscan
      refine ⟨?_, ?_, ?_⟩
      · intro addr fl hafl hflag
        have haddr_not : ¬ addr ∈ ips := by
          intro hin
          obtain ⟨fl', hfl', hd, hl⟩ := (hmem addr).mp hin
          have hfe : fl' = fl := nodup_keys_eq _ hnodup hfl' hafl
          subst hfe
          rcases hflag with hf | hf
          · exact hd hf
          · exact hl hf
        constructor
        · intro ips' hips'
          rw [staticSystemIps, hscan] at hips'
          simp at hips'
          rw [← hips']
          exact haddr_not
        · intro hin
          by_cases hne : listDiff ips (netplanIps cfg) = []
          · simp [create_new_iface, hne] at hin
          · simp [create_new_iface, hne] at hin
            exact haddr_not ((mem_listDiff _ _ _).mp hin).1
      · simpa [create_new_iface] using h4
      · simpa [create_new_iface] using h6

/-- Witness for the amended C1, on the interface `exC1W` (DHCPv4 declared,
one live `dhcp`-flagged IPv4 address, on which the analyzer returns the
unchanged fresh iface record). -/
theorem C1_address_analysis_witness :
    (∀ addr fl, (addr, fl) ∈ sysAddrPairs exC1W →
      ("dhcp" ∈ fl ∨ "link" ∈ fl) →
      (∀ ips, staticSystemIps testIpm exC1W = some ips → ¬ addr ∈ ips) ∧
      ¬ addr ∈
        (create_new_iface "eth0").netplan_state.missing_addresses.getD []) ∧
    ((create_new_iface "eth0").system_state.missing_dhcp4_address = true ↔
      (truthyBool (npView exC1W).dhcp4 = true ∧
        ∀ addr fl, (addr, fl) ∈ sysAddrPairs exC1W → "dhcp" ∈ fl →
          ¬ famOf testIpm addr = some Fam.v4)) ∧
    ((create_new_iface "eth0").system_state.missing_dhcp6_address = true ↔
      (truthyBool (npView exC1W).dhcp6 = true ∧
        ∀ addr fl, (addr, fl) ∈ sysAddrPairs exC1W → "dhcp" ∈ fl →
          ¬ famOf testIpm addr = some Fam.v6)) :=
  C1_address_analysis testIpm exC1W "eth0" (create_new_iface "eth0")
    (by decide) (by rfl)

/-! ## Claim C2 — route filtering -/

/-- C2 counterexample: on `exC2` the live route `exRoute` has scope
`link`, so it is discarded from the live comparison set — yet it does
appear in a `missing_routes` list (`system_state.missing_routes`, because
an equal route is also declared), refuting the claim that a discarded live
route never appears in any `missing_routes` list. -/
theorem C2_counterexample :
    exRoute.scope = some "link" ∧
    exRoute ∈ (sysView exC2).routes.getD [] ∧
    (analyze_routes testIpm exC2 (create_new_iface "eth0")).map
      (fun d => d.system_state.missing_routes) = some (some [exRoute]) := by
  refine ⟨rfl, ?_, ?_⟩
  · simp [exC2, sysView]
  · rfl

/-- C2 (amended): for every matched interface, a live route is discarded
before the route diff exactly when it has scope `link`, or protocol `dhcp`
or `ra`, or a link-local destination other than the literal `default`, or
is a host-scoped local self-route, or the default IPv6 multicast route, or
has a destination equal to one of the interface's own local networks or
own addresses; a discarded live route never appears in
`netplan_state.missing_routes` (an equal declared route can still appear
in `system_state.missing_routes`, see `C2_counterexample`); every
remaining live route absent from the declared route set appears in
`netplan_state.missing_routes`, and every declared route absent from the
filtered live set appears in `system_state.missing_routes`, compared by
full-field value equality. -/
theorem C2_route_filtering (ipm : IpModule) (cfg : FullEntry) (nm : String)
    (res : IfaceDiff)
    (hres : analyze_routes ipm cfg (create_new_iface nm) = some res) :
    (∀ kept, filter_system_routes ipm ((sysView cfg).routes.getD [])
        (sysAddrKeys cfg) = some kept →
      ∀ r ∈ (sysView cfg).routes.getD [],
        (¬ r ∈ kept ↔ claimRouteDiscard ipm cfg r)) ∧
    (∀ r : NetplanRoute,
      r ∈ res.netplan_state.missing_routes.getD [] ↔
      (r ∈ (sysView cfg).routes.getD [] ∧ ¬ claimRouteDiscard ipm cfg r ∧
        ¬ r ∈ (npView cfg).routes.getD [])) ∧
    (∀ r : NetplanRoute,
      r ∈ res.system_state.missing_routes.getD [] ↔
      (r ∈ (npView cfg).routes.getD [] ∧
        ¬ (r ∈ (sysView cfg).routes.getD [] ∧
          ¬ claimRouteDiscard ipm cfg r))) := by
  cases hk : filter_system_routes ipm ((sysView cfg).routes.getD [])
      (sysAddrKeys cfg) with
  | none => simp [analyze_routes, hk] at hres
  | some kept =>
      rw [analyze_routes_eq ipm cfg _ kept hk] at hres
      have hres' := Option.some.inj hres
      subst hres'
      obtain ⟨ln, oa, hln, hoa, hfk⟩ := filter_system_routes_eq ipm _ _ _ hk
      have hmem := filterKeptRoutes_mem ipm ln oa _ _ hfk
      have hkeep_isSome : ∀ r ∈ (sysView cfg).routes.getD [],
          (route_filter_keep ipm ln oa r).isSome = true := by
        intro r hr
        exact (filterKeptRoutes_isSome ipm ln oa _).mp (by rw [hfk]; rfl) r hr
      have hkept_iff : ∀ r : NetplanRoute, r ∈ kept ↔
          (r ∈ (sysView cfg).routes.getD [] ∧
            ¬ claimRouteDiscard ipm cfg r) := by
        intro r
        rw [hmem r]
        constructor
        · rintro ⟨hr, hkt⟩
          refine ⟨hr, ?_⟩
          have hiff := route_filter_keep_false_iff ipm ln oa r true hkt
          rw [discard_bridge ipm cfg ln oa r hln hoa] at hiff
          intro hd
          exact absurd (hiff.mpr hd) (by simp)
        · rintro ⟨hr, hnd⟩
          refine ⟨hr, ?_⟩
          obtain ⟨k, hk'⟩ := Option.isSome_iff_exists.mp (hkeep_isSome r hr)
          cases k with
          | false =>
              exfalso
              have hiff := route_filter_keep_false_iff ipm ln oa r false hk'
              rw [discard_bridge ipm cfg ln oa r hln hoa] at hiff
              exact hnd (hiff.mp rfl)
          | true => exact hk'
      refine ⟨?_, ?_, ?_⟩
      · intro kept' hkept' r hr
        have he : kept = kept' := Option.some.inj hkept'
        subst he
        constructor
        · intro hni
          by_contra hnd
          exact hni ((hkept_iff r).mpr ⟨hr, hnd⟩)
        · intro hd hin
          exact ((hkept_iff r).mp hin).2 hd
      · intro r
        have hfield : ({ create_new_iface nm with
            system_state := { (create_new_iface nm).system_state with
              missing_routes := if listDiff ((npView cfg).routes.getD [])
                  kept ≠ [] then
                some (listDiff ((npView cfg).routes.getD []) kept)
                else (create_new_iface nm).system_state.missing_routes }
            netplan_state := { (create_new_iface nm).netplan_state with
              missing_routes := if listDiff kept
                  ((npView cfg).routes.getD []) ≠ [] then
                some (listDiff kept ((npView cfg).routes.getD []))
                else (create_new_iface nm).netplan_state.missing_routes }
          } : IfaceDiff).netplan_state.missing_routes =
            (if listDiff kept ((npView cfg).routes.getD []) ≠ [] then
              some (listDiff kept ((npView cfg).routes.getD []))
              else none) := by
          simp [create_new_iface]
        rw [hfield, mem_if_diff]
        rw [hkept_iff r]
        constructor
        · rintro ⟨⟨hr, hnd⟩, hnp⟩
          exact ⟨hr, hnd, hnp⟩
        · rintro ⟨hr, hnd, hnp⟩
          exact ⟨⟨hr, hnd⟩, hnp⟩
      · intro r
        have hfield : ({ create_new_iface nm with
            system_state := { (create_new_iface nm).system_state with
              missing_routes := if listDiff ((npView cfg).routes.getD [])
                  kept ≠ [] then
                some (listDiff ((npView cfg).routes.getD []) kept)
                else (create_new_iface nm).system_state.missing_routes }
            netplan_state := { (create_new_iface nm).netplan_state with
              missing_routes := if listDiff kept
                  ((npView cfg).routes.getD []) ≠ [] then
                some (listDiff kept ((npView cfg).routes.getD []))
                else (create_new_iface nm).netplan_state.missing_routes }
          } : IfaceDiff).system_state.missing_routes =
            (if listDiff ((npView cfg).routes.getD []) kept ≠ [] then
              some (listDiff ((npView cfg).routes.getD []) kept)
              else none) := by
          simp [create_new_iface]
        rw [hfield, mem_if_diff]
        constructor
        · rintro ⟨hnp, hnk⟩
          refine ⟨hnp, ?_⟩
          intro hc
          exact hnk ((hkept_iff r).mpr hc)
        · rintro ⟨hnp, hnk⟩
          refine ⟨hnp, ?_⟩
          intro hc
          exact hnk ((hkept_iff r).mp hc)

/-- Witness for the amended C2 on the interface `exC2` (one scope-`link`
live route, equal declared route). -/
theorem C2_route_filtering_witness :
    (∀ kept, filter_system_routes testIpm ((sysView exC2).routes.getD [])
        (sysAddrKeys exC2) = some kept →
      ∀ r ∈ (sysView exC2).routes.getD [],
        (¬ r ∈ kept ↔ claimRouteDiscard testIpm exC2 r)) ∧
    (∀ r : NetplanRoute,
      r ∈ exC2res.netplan_state.missing_routes.getD [] ↔
      (r ∈ (sysView exC2).routes.getD [] ∧
        ¬ claimRouteDiscard testIpm exC2 r ∧
        ¬ r ∈ (npView exC2).routes.getD [])) ∧
    (∀ r : NetplanRoute,
      r ∈ exC2res.system_state.missing_routes.getD [] ↔
      (r ∈ (npView exC2).routes.getD [] ∧
        ¬ (r ∈ (sysView exC2).routes.getD [] ∧
          ¬ claimRouteDiscard testIpm exC2 r))) :=
  C2_route_filtering testIpm exC2 "eth0" exC2res (by rfl)

/-! ## Claim C3 — totality of the per-category analyses -/

/-- C3 counterexample: on `exC3` (one live route with no destination that
passes the scope/protocol guards) the route analysis does not return
normally: `ipaddress.ip_interface(route.to)` receives `None` and raises
`ValueError`, modelled by the analyzer returning `none`. -/
theorem C3_counterexample :
    analyze_routes testIpm exC3 (create_new_iface "eth0") = none := by rfl

/-- C3 (amended): on snapshots whose address and nameserver strings parse,
the address, nameserver, search-domain and MAC analyses always return
normally (the latter two are total functions by construction), and the
route analysis returns normally if and only if every live route is either
discarded by the scope/protocol guards or carries a destination that is
the literal `default` or parses — in particular it raises when a live
route that passes the guards has no destination at all. -/
theorem C3_no_raise (ipm : IpModule) (cfg : FullEntry) (d : IfaceDiff)
    (hA : ∀ p ∈ sysAddrPairs cfg, (ipm.ipInterface p.1).isSome = true)
    (hN : ∀ ns ∈ (sysView cfg).nameservers.getD [],
      (ipm.ipAddressFam ns).isSome = true) :
    (analyze_ip_addresses ipm cfg d).isSome = true ∧
    (analyze_nameservers ipm cfg d).isSome = true ∧
    ((analyze_routes ipm cfg d).isSome = true ↔
      ∀ r ∈ (sysView cfg).routes.getD [],
        (r.scope = some "link" ∨ r.protocol = some "dhcp" ∨
         r.protocol = some "ra" ∨
         ∃ s, r.to_field = some s ∧
           (s = "default" ∨ (ipm.ipInterface s).isSome = true))) := by
  refine ⟨?_, ?_, ?_⟩
  · cases hscan : scanSysAddrs ipm (sysAddrPairs cfg)
        (truthyBool (npView cfg).dhcp4) (truthyBool (npView cfg).dhcp6) with
    | none =>
        exfalso
        have := (scanSysAddrs_isSome ipm (sysAddrPairs cfg)
          (truthyBool (npView cfg).dhcp4)
          (truthyBool (npView cfg).dhcp6)).mpr hA
        rw [hscan] at this
        simp at this
    | some t => simp [analyze_ip_addresses, hscan]
  · have hfil : (filteredSystemNameservers ipm cfg).isSome = true := by
      have hsub : ∀ ns ∈ systemNsAfterRa cfg,
          (ipm.ipAddressFam ns).isSome = true := fun ns hns =>
        hN ns (List.mem_of_mem_filter hns)
      unfold filteredSystemNameservers
      by_cases hnp : (npView cfg).nameservers.getD [] = []
      · rw [if_pos hnp]
        by_cases h4 : truthyBool (npView cfg).dhcp4 = true
        · rw [if_pos h4]
          cases h1 : removeFam ipm Fam.v4 (systemNsAfterRa cfg) with
          | none =>
              exfalso
              have := (removeFam_isSome ipm Fam.v4
                (systemNsAfterRa cfg)).mpr hsub
              rw [h1] at this; simp at this
          | some s1 =>
              dsimp only
              by_cases h6 : truthyBool (npView cfg).dhcp6 = true
              · rw [if_pos h6]
                apply (removeFam_isSome ipm Fam.v6 s1).mpr
                intro ns hns
                exact hsub ns ((removeFam_mem ipm Fam.v4 _ _ h1 ns).mp
                  hns).1
              · rw [if_neg h6]; rfl
        · rw [if_neg h4]
          dsimp only
          by_cases h6 : truthyBool (npView cfg).dhcp6 = true
          · rw [if_pos h6]
            exact (removeFam_isSome ipm Fam.v6 _).mpr hsub
          · rw [if_neg h6]; rfl
      · rw [if_neg hnp]; rfl
    cases hfs : filteredSystemNameservers ipm cfg with
    | none => rw [hfs] at hfil; simp at hfil
    | some s => simp [analyze_nameservers, hfs]
  · constructor
    · intro hs
      cases hk : filter_system_routes ipm ((sysView cfg).routes.getD [])
          (sysAddrKeys cfg) with
      | none => simp [analyze_routes, hk] at hs
      | some kept =>
          have : (filter_system_routes ipm ((sysView cfg).routes.getD [])
              (sysAddrKeys cfg)).isSome = true := by rw [hk]; rfl
          exact ((filter_system_routes_isSome_iff ipm _ _).mp this).2
    · intro hall
      have hAk : ∀ a ∈ sysAddrKeys cfg, (ipm.ipInterface a).isSome = true := by
        intro a ha
        obtain ⟨p, hp, hpa⟩ := List.mem_map.mp ha
        exact hpa ▸ hA p hp
      have : (filter_system_routes ipm ((sysView cfg).routes.getD [])
          (sysAddrKeys cfg)).isSome = true :=
        (filter_system_routes_isSome_iff ipm _ _).mpr ⟨hAk, hall⟩
      cases hk : filter_system_routes ipm ((sysView cfg).routes.getD [])
          (sysAddrKeys cfg) with
      | none => rw [hk] at this; simp at this
      | some kept => simp [analyze_routes, hk]

/-- Witness for the amended C3 on the well-formed interface `exC3W`. -/
theorem C3_no_raise_witness :
    (analyze_ip_addresses testIpm exC3W (create_new_iface "eth0")).isSome
      = true ∧
    (analyze_nameservers testIpm exC3W (create_new_iface "eth0")).isSome
      = true ∧
    ((analyze_routes testIpm exC3W (create_new_iface "eth0")).isSome
      = true ↔
      ∀ r ∈ (sysView exC3W).routes.getD [],
        (r.scope = some "link" ∨ r.protocol = some "dhcp" ∨
         r.protocol = some "ra" ∨
         ∃ s, r.to_field = some s ∧
           (s = "default" ∨ (testIpm.ipInterface s).isSome = true))) :=
  C3_no_raise testIpm exC3W (create_new_iface "eth0")
    (by intro p hp
        simp [exC3W, sysAddrPairs, sysView] at hp
        subst hp
        rfl)
    (by intro ns hns
        simp [exC3W, sysView] at hns)

/-! ## Claim C6 — nameserver filtering -/

/-- C6: for every matched interface, the nameserver diff removes from the
live set every address equal to the (truthy) gateway of an `ra`-protocol
live route; when the declared nameserver list is empty it additionally
removes every live IPv4 nameserver if dhcp4 is declared enabled and every
live IPv6 nameserver if dhcp6 is declared enabled; the remaining sets are
diffed symmetrically into `system_state.missing_nameservers` and
`netplan_state.missing_nameservers`. -/
theorem C6_nameserver_filtering (ipm : IpModule) (cfg : FullEntry)
    (nm : String) (res : IfaceDiff)
    (hres : analyze_nameservers ipm cfg (create_new_iface nm) = some res) :
    (∀ ns : String, ns ∈ res.netplan_state.missing_nameservers.getD [] ↔
      (nsSurvives ipm cfg ns ∧
        ¬ ns ∈ (npView cfg).nameservers.getD [])) ∧
    (∀ ns : String, ns ∈ res.system_state.missing_nameservers.getD [] ↔
      (ns ∈ (npView cfg).nameservers.getD [] ∧
        ¬ nsSurvives ipm cfg ns)) := by
  cases hfs : filteredSystemNameservers ipm cfg with
  | none => simp [analyze_nameservers, hfs] at hres
  | some out =>
      simp only [analyze_nameservers, hfs] at hres
      have he := Option.some.inj hres
      subst he
      have hout := filteredSystemNameservers_mem ipm cfg out hfs
      have hsurv : ∀ x, x ∈ out ↔ nsSurvives ipm cfg x := by
        intro x
        rw [hout x, mem_systemNsAfterRa, mem_raVias]
        unfold nsSurvives
        constructor
        · rintro ⟨⟨hin, hra⟩, hc⟩
          exact ⟨hin, hra, hc⟩
        · rintro ⟨hin, hra, hc⟩
          exact ⟨⟨hin, hra⟩, hc⟩
      refine ⟨?_, ?_⟩
      · intro ns
        rw [show ({ create_new_iface nm with
            system_state := { (create_new_iface nm).system_state with
              missing_nameservers :=
                if listDiff ((npView cfg).nameservers.getD []) out ≠ []
                then some (listDiff ((npView cfg).nameservers.getD []) out)
                else (create_new_iface nm).system_state.missing_nameservers }
            netplan_state := { (create_new_iface nm).netplan_state with
              missing_nameservers :=
                if listDiff out ((npView cfg).nameservers.getD []) ≠ []
                then some (listDiff out ((npView cfg).nameservers.getD []))
                else (create_new_iface nm).netplan_state.missing_nameservers }
          } : IfaceDiff).netplan_state.missing_nameservers =
            (if listDiff out ((npView cfg).nameservers.getD []) ≠ [] then
              some (listDiff out ((npView cfg).nameservers.getD []))
              else none) from by simp [create_new_iface]]
        rw [mem_if_diff]
        rw [hsurv ns]
      · intro ns
        rw [show ({ create_new_iface nm with
            system_state := { (create_new_iface nm).system_state with
              missing_nameservers :=
                if listDiff ((npView cfg).nameservers.getD []) out ≠ []
                then some (listDiff ((npView cfg).nameservers.getD []) out)
                else (create_new_iface nm).system_state.missing_nameservers }
            netplan_state := { (create_new_iface nm).netplan_state with
              missing_nameservers :=
                if listDiff out ((npView cfg).nameservers.getD []) ≠ []
                then some (listDiff out ((npView cfg).nameservers.getD []))
                else (create_new_iface nm).netplan_state.missing_nameservers }
          } : IfaceDiff).system_state.missing_nameservers =
            (if listDiff ((npView cfg).nameservers.getD []) out ≠ [] then
              some (listDiff ((npView cfg).nameservers.getD []) out)
              else none) from by simp [create_new_iface]]
        rw [mem_if_diff]
        rw [hsurv ns]

/-- Witness for C6 on the interface `exC6` (declared `8.8.8.8`; live
`192.168.0.1` and an RA-suppressed `2001:db8::53`). -/
theorem C6_nameserver_filtering_witness :
    (∀ ns : String,
      ns ∈ exC6res.netplan_state.missing_nameservers.getD [] ↔
      (nsSurvives testIpm exC6 ns ∧
        ¬ ns ∈ (npView exC6).nameservers.getD [])) ∧
    (∀ ns : String,
      ns ∈ exC6res.system_state.missing_nameservers.getD [] ↔
      (ns ∈ (npView exC6).nameservers.getD [] ∧
        ¬ nsSurvives testIpm exC6 ns)) :=
  C6_nameserver_filtering testIpm exC6 "eth0" exC6res (by rfl)

/-! ## Claim C8 — symmetry and disjointness of the per-category diffs -/

/-- C8: for every matched interface and every attribute category
(addresses, nameservers, search domains, routes), a value placed in
`system_state.missing_*` is in the declared set and not in the
heuristically filtered live set, a value placed in
`netplan_state.missing_*` is in the filtered live set and not in the
declared set, and the two lists for the same category are disjoint. -/
theorem C8_symmetry (ipm : IpModule) (cfg : FullEntry) (nm : String)
    (res : IfaceDiff)
    (hres : analyze_all ipm cfg (create_new_iface nm) = some res) :
    (∀ ips, staticSystemIps ipm cfg = some ips →
      (∀ x ∈ res.system_state.missing_addresses.getD [],
        x ∈ netplanIps cfg ∧ ¬ x ∈ ips) ∧
      (∀ x ∈ res.netplan_state.missing_addresses.getD [],
        x ∈ ips ∧ ¬ x ∈ netplanIps cfg) ∧
      (∀ x : String, ¬ (x ∈ res.system_state.missing_addresses.getD [] ∧
        x ∈ res.netplan_state.missing_addresses.getD []))) ∧
    (∀ out, filteredSystemNameservers ipm cfg = some out →
      (∀ x ∈ res.system_state.missing_nameservers.getD [],
        x ∈ (npView cfg).nameservers.getD [] ∧ ¬ x ∈ out) ∧
      (∀ x ∈ res.netplan_state.missing_nameservers.getD [],
        x ∈ out ∧ ¬ x ∈ (npView cfg).nameservers.getD []) ∧
      (∀ x : String, ¬ (x ∈ res.system_state.missing_nameservers.getD [] ∧
        x ∈ res.netplan_state.missing_nameservers.getD []))) ∧
    ((∀ x ∈ res.system_state.missing_search_domains.getD [],
        x ∈ (npView cfg).search.getD [] ∧
          ¬ x ∈ filteredSearchDomains cfg) ∧
      (∀ x ∈ res.netplan_state.missing_search_domains.getD [],
        x ∈ filteredSearchDomains cfg ∧
          ¬ x ∈ (npView cfg).search.getD []) ∧
      (∀ x : String,
        ¬ (x ∈ res.system_state.missing_search_domains.getD [] ∧
          x ∈ res.netplan_state.missing_search_domains.getD []))) ∧
    (∀ kept, filter_system_routes ipm ((sysView cfg).routes.getD [])
        (sysAddrKeys cfg) = some kept →
      (∀ r ∈ res.system_state.missing_routes.getD [],
        r ∈ (npView cfg).routes.getD [] ∧ ¬ r ∈ kept) ∧
      (∀ r ∈ res.netplan_state.missing_routes.getD [],
        r ∈ kept ∧ ¬ r ∈ (npView cfg).routes.getD []) ∧
      (∀ r : NetplanRoute,
        ¬ (r ∈ res.system_state.missing_routes.getD [] ∧
          r ∈ res.netplan_state.missing_routes.getD []))) := by
  obtain ⟨ips, r4, r6, out, kept, hscan, hfs, hk, hname, hsa, hna, _, _,
    hsn, hnn, hss, hnsd, hsr, hnr⟩ :=
    analyze_all_fields ipm cfg nm res hres
  refine ⟨?_, ?_, ?_, ?_⟩
  · intro ips' hips'
    rw [staticSystemIps, hscan] at hips'
    simp at hips'
    subst hips'
    refine ⟨?_, ?_, ?_⟩
    · intro x hx
      rw [hsa] at hx
      exact (mem_if_diff _ _ x).mp hx
    · intro x hx
      rw [hna] at hx
      exact (mem_if_diff _ _ x).mp hx
    · rintro x ⟨h1, h2⟩
      rw [hsa] at h1
      rw [hna] at h2
      exact ((mem_if_diff _ _ x).mp h1).2 ((mem_if_diff _ _ x).mp h2).1
  · intro out' hout'
    have he : out = out' := Option.some.inj (hfs.symm.trans hout')
    subst he
    refine ⟨?_, ?_, ?_⟩
    · intro x hx
      rw [hsn] at hx
      exact (mem_if_diff _ _ x).mp hx
    · intro x hx
      rw [hnn] at hx
      exact (mem_if_diff _ _ x).mp hx
    · rintro x ⟨h1, h2⟩
      rw [hsn] at h1
      rw [hnn] at h2
      exact ((mem_if_diff _ _ x).mp h1).2 ((mem_if_diff _ _ x).mp h2).1
  · refine ⟨?_, ?_, ?_⟩
    · intro x hx
      rw [hss] at hx
      exact (mem_if_diff _ _ x).mp hx
    · intro x hx
      rw [hnsd] at hx
      exact (mem_if_diff _ _ x).mp hx
    · rintro x ⟨h1, h2⟩
      rw [hss] at h1
      rw [hnsd] at h2
      exact ((mem_if_diff _ _ x).mp h1).2 ((mem_if_diff _ _ x).mp h2).1
  · intro kept' hkept'
    have he : kept = kept' := Option.some.inj (hk.symm.trans hkept')
    subst he
    refine ⟨?_, ?_, ?_⟩
    · intro r hr
      rw [hsr] at hr
      exact (mem_if_diff _ _ r).mp hr
    · intro r hr
      rw [hnr] at hr
      exact (mem_if_diff _ _ r).mp hr
    · rintro r ⟨h1, h2⟩
      rw [hsr] at h1
      rw [hnr] at h2
      exact ((mem_if_diff _ _ r).mp h1).2 ((mem_if_diff _ _ r).mp h2).1

/-- Witness for C8 on the interface `exC2`, whose full analysis yields
`exC2res`. -/
theorem C8_symmetry_witness :
    (∀ ips, staticSystemIps testIpm exC2 = some ips →
      (∀ x ∈ exC2res.system_state.missing_addresses.getD [],
        x ∈ netplanIps exC2 ∧ ¬ x ∈ ips) ∧
      (∀ x ∈ exC2res.netplan_state.missing_addresses.getD [],
        x ∈ ips ∧ ¬ x ∈ netplanIps exC2) ∧
      (∀ x : String,
        ¬ (x ∈ exC2res.system_state.missing_addresses.getD [] ∧
          x ∈ exC2res.netplan_state.missing_addresses.getD []))) ∧
    (∀ out, filteredSystemNameservers testIpm exC2 = some out →
      (∀ x ∈ exC2res.system_state.missing_nameservers.getD [],
        x ∈ (npView exC2).nameservers.getD [] ∧ ¬ x ∈ out) ∧
      (∀ x ∈ exC2res.netplan_state.missing_nameservers.getD [],
        x ∈ out ∧ ¬ x ∈ (npView exC2).nameservers.getD []) ∧
      (∀ x : String,
        ¬ (x ∈ exC2res.system_state.missing_nameservers.getD [] ∧
          x ∈ exC2res.netplan_state.missing_nameservers.getD []))) ∧
    ((∀ x ∈ exC2res.system_state.missing_search_domains.getD [],
        x ∈ (npView exC2).search.getD [] ∧
          ¬ x ∈ filteredSearchDomains exC2) ∧
      (∀ x ∈ exC2res.netplan_state.missing_search_domains.getD [],
        x ∈ filteredSearchDomains exC2 ∧
          ¬ x ∈ (npView exC2).search.getD []) ∧
      (∀ x : String,
        ¬ (x ∈ exC2res.system_state.missing_search_domains.getD [] ∧
          x ∈ exC2res.netplan_state.missing_search_domains.getD []))) ∧
    (∀ kept, filter_system_routes testIpm ((sysView exC2).routes.getD [])
        (sysAddrKeys exC2) = some kept →
      (∀ r ∈ exC2res.system_state.missing_routes.getD [],
        r ∈ (npView exC2).routes.getD [] ∧ ¬ r ∈ kept) ∧
      (∀ r ∈ exC2res.netplan_state.missing_routes.getD [],
        r ∈ kept ∧ ¬ r ∈ (npView exC2).routes.getD []) ∧
      (∀ r : NetplanRoute,
        ¬ (r ∈ exC2res.system_state.missing_routes.getD [] ∧
          r ∈ exC2res.netplan_state.missing_routes.getD []))) :=
  C8_symmetry testIpm exC2 "eth0" exC2res (by rfl)

/-! ## Claim C5 — missing-interface analysis -/

/-- C5: `missing_interfaces_system` is the lexicographically sorted list
of declared ids with no live interface carrying that id, excluding
declared ids of device type `wifis`; `missing_interfaces_netplan` is the
sorted list of live interface names whose declared id is not among the
declared ids, excluding the interface named `lo`.  (The hypothesis that
declared ids are non-empty strings reflects that a netdef id is never the
empty string; the code tests live ids for truthiness.) -/
theorem C5_missing_interfaces (sys : SystemConfigState)
    (nps : NetplanConfigState)
    (hids : ∀ p ∈ nps.netdefs, p.1 ≠ "") :
    (analyze_missing_interfaces sys nps).1 =
      sortStrings ((netdefIds nps).filter (fun d =>
        (∀ i ∈ sys.interface_list, ¬ i.netdef_id = some d) ∧
        ¬ (lookupA nps.netdefs d).map NetdefConfig.type = some "wifis")) ∧
    (analyze_missing_interfaces sys nps).2 =
      sortStrings ((sys.interface_list.filter (fun i =>
        ¬ i.name = "lo" ∧ ¬ optMem i.netdef_id (netdefIds nps) = true)).map
        SysInterface.name) := by
  constructor
  · unfold analyze_missing_interfaces
    dsimp only
    congr 1
    rw [filter_filter']
    apply List.filter_congr
    intro d hd
    have hdne : d ≠ "" := by
      obtain ⟨p, hp, hfst⟩ := List.mem_map.mp hd
      exact hfst ▸ hids p hp
    have hiff : (¬ d ∈ systemNetdefIds sys) ↔
        (∀ i ∈ sys.interface_list, ¬ i.netdef_id = some d) := by
      rw [mem_systemNetdefIds]
      constructor
      · intro hn i hi hid
        exact hn ⟨⟨i, hi, hid⟩, hdne⟩
      · rintro hall ⟨⟨i, hi, hid⟩, _⟩
        exact hall i hi hid
    simp [hiff]
  · rfl

/-- Witness for C5 on `exC5sys`/`exC5nps` (matched `eth0`/`mydev`,
excluded `lo` and disconnected-wifi `wlan0`, genuinely missing `br0` and
`wlan1`). -/
theorem C5_missing_interfaces_witness :
    (analyze_missing_interfaces exC5sys exC5nps).1 =
      sortStrings ((netdefIds exC5nps).filter (fun d =>
        (∀ i ∈ exC5sys.interface_list, ¬ i.netdef_id = some d) ∧
        ¬ (lookupA exC5nps.netdefs d).map NetdefConfig.type
          = some "wifis")) ∧
    (analyze_missing_interfaces exC5sys exC5nps).2 =
      sortStrings ((exC5sys.interface_list.filter (fun i =>
        ¬ i.name = "lo" ∧
        ¬ optMem i.netdef_id (netdefIds exC5nps) = true)).map
        SysInterface.name) :=
  C5_missing_interfaces exC5sys exC5nps (by decide)

/-! ## Claim C10 — shape of the report's interfaces map -/

/-- C10: every entry of the report's `interfaces` map is keyed by the
netdef id of a full-state interface and holds a record with the live
interface name and the two always-present sub-records (`IfaceDiff` has
exactly the keys `name`, `system_state`, `netplan_state` by construction,
`_create_new_iface`); and each of the four `missing_*` list keys, when
present in a sub-record, holds a non-empty list — an empty difference set
produces no key at all. -/
theorem C10_report_shape (ipm : IpModule) (sys : SystemConfigState)
    (nps : NetplanConfigState) (f : Option String) (rep : Report)
    (hrep : get_diff ipm sys nps f = some rep) :
    ∀ p ∈ rep.interfaces,
      (∃ q ∈ get_full_state sys nps,
        truthyStr (q.2).id = some p.1 ∧ (p.2).name = q.1) ∧
      ¬ (p.2).system_state.missing_addresses = some [] ∧
      ¬ (p.2).netplan_state.missing_addresses = some [] ∧
      ¬ (p.2).system_state.missing_nameservers = some [] ∧
      ¬ (p.2).netplan_state.missing_nameservers = some [] ∧
      ¬ (p.2).system_state.missing_search_domains = some [] ∧
      ¬ (p.2).netplan_state.missing_search_domains = some [] ∧
      ¬ (p.2).system_state.missing_routes = some [] ∧
      ¬ (p.2).netplan_state.missing_routes = some [] := by
  obtain ⟨ifaces, hsub, hpe, _, _⟩ :=
    get_diff_decompose ipm sys nps f rep hrep
  refine process_interfaces_spec ipm
    (fun p =>
      (∃ q ∈ get_full_state sys nps,
        truthyStr (q.2).id = some p.1 ∧ (p.2).name = q.1) ∧
      ¬ (p.2).system_state.missing_addresses = some [] ∧
      ¬ (p.2).netplan_state.missing_addresses = some [] ∧
      ¬ (p.2).system_state.missing_nameservers = some [] ∧
      ¬ (p.2).netplan_state.missing_nameservers = some [] ∧
      ¬ (p.2).system_state.missing_search_domains = some [] ∧
      ¬ (p.2).netplan_state.missing_search_domains = some [] ∧
      ¬ (p.2).system_state.missing_routes = some [] ∧
      ¬ (p.2).netplan_state.missing_routes = some [])
    ifaces [] rep.interfaces hpe (by simp) ?_
  intro nm cfg nid d hmem hss hid had
  obtain ⟨ips, r4, r6, out, kept, hscan, hfs, hk, hname, hsa, hna, _, _,
    hsn, hnn, hssd, hnsd, hsr, hnr⟩ := analyze_all_fields ipm cfg nm d had
  refine ⟨⟨(nm, cfg), hsub _ hmem, hid, hname⟩, ?_, ?_, ?_, ?_, ?_, ?_,
    ?_, ?_⟩
  · rw [hsa]; exact if_diff_ne_some_nil _ _
  · rw [hna]; exact if_diff_ne_some_nil _ _
  · rw [hsn]; exact if_diff_ne_some_nil _ _
  · rw [hnn]; exact if_diff_ne_some_nil _ _
  · rw [hssd]; exact if_diff_ne_some_nil _ _
  · rw [hnsd]; exact if_diff_ne_some_nil _ _
  · rw [hsr]; exact if_diff_ne_some_nil _ _
  · rw [hnr]; exact if_diff_ne_some_nil _ _

/-- Witness for C10 on the concrete snapshots `exSys`/`exNps`, whose diff
report is `exRep`: its single interface entry has the claimed shape. -/
theorem C10_report_shape_witness :
    ∃ p ∈ exRep.interfaces,
      (∃ q ∈ get_full_state exSys exNps,
        truthyStr (q.2).id = some p.1 ∧ (p.2).name = q.1) ∧
      ¬ (p.2).system_state.missing_addresses = some [] ∧
      ¬ (p.2).netplan_state.missing_addresses = some [] ∧
      ¬ (p.2).system_state.missing_nameservers = some [] ∧
      ¬ (p.2).netplan_state.missing_nameservers = some [] ∧
      ¬ (p.2).system_state.missing_search_domains = some [] ∧
      ¬ (p.2).netplan_state.missing_search_domains = some [] ∧
      ¬ (p.2).system_state.missing_routes = some [] ∧
      ¬ (p.2).netplan_state.missing_routes = some [] :=
  ⟨("mydev",
    { name := "eth0"
      netplan_state := { missing_addresses := some ["192.168.0.1/24"] } }),
   by simp [exRep],
   C10_report_shape testIpm exSys exNps none exRep (by rfl) _
     (by simp [exRep])⟩

/-! ## Claim C9 — the interface filter leaves the global analysis alone -/

/-- C9: filtering `get_diff` to a single interface name leaves
`missing_interfaces_system` and `missing_interfaces_netplan` exactly as in
the unfiltered report, and only restricts the `interfaces` map to the
named interface's entry.  Hypotheses: a non-empty filter name (Python
treats `""` as no filter) and pairwise-distinct netdef ids among matched
interfaces (the §4.1 upstream contract; colliding declared ids are
undefined behavior). -/
theorem C9_filter_frame (ipm : IpModule) (sys : SystemConfigState)
    (nps : NetplanConfigState) (nm : String) (rep : Report)
    (hnm : ¬ nm = "")
    (huniq : (qualIds (get_full_state sys nps)).Nodup)
    (hrep : get_diff ipm sys nps none = some rep) :
    ∃ rep', get_diff ipm sys nps (some nm) = some rep' ∧
      rep'.missing_interfaces_system = rep.missing_interfaces_system ∧
      rep'.missing_interfaces_netplan = rep.missing_interfaces_netplan ∧
      rep'.interfaces
        = rep.interfaces.filter (fun p => (p.2).name = nm) := by
  have hkeys := get_full_state_keys_nodup sys nps
  unfold get_diff at hrep
  rw [show truthyStr (none : Option String) = none from rfl] at hrep
  dsimp only at hrep
  rw [process_interfaces_eq_append ipm (get_full_state sys nps) [] huniq
    (by simp)] at hrep
  cases hpr : produceEntries ipm (get_full_state sys nps) with
  | none => rw [hpr] at hrep; simp at hrep
  | some es =>
      rw [hpr] at hrep
      simp only [Option.map_some', List.nil_append, Option.bind_eq_bind,
        Option.some_bind] at hrep
      have he := Option.some.inj hrep
      have hint : rep.interfaces = es := by rw [← he]
      have hms : rep.missing_interfaces_system
          = (analyze_missing_interfaces sys nps).1 := by rw [← he]
      have hmn : rep.missing_interfaces_netplan
          = (analyze_missing_interfaces sys nps).2 := by rw [← he]
      have htr : truthyStr (some nm) = some nm := by
        simp [truthyStr, hnm]
      cases hlk : lookupA (get_full_state sys nps) nm with
      | none =>
          refine ⟨{ interfaces := []
                    missing_interfaces_system :=
                      (analyze_missing_interfaces sys nps).1
                    missing_interfaces_netplan :=
                      (analyze_missing_interfaces sys nps).2 },
            ?_, ?_, ?_, ?_⟩
          · unfold get_diff
            rw [htr]
            dsimp only
            rw [hlk]
            rfl
          · rw [hms]
          · rw [hmn]
          · rw [hint]
            exact (produceEntries_filter_none ipm _ es nm hpr
              (fun cfg hc => lookupA_eq_none _ _ hlk cfg hc)).symm
      | some cfg =>
          have hmem : (nm, cfg) ∈ get_full_state sys nps :=
            lookupA_mem _ _ _ hlk
          by_cases hss : cfg.system_state = none
          · refine ⟨{ interfaces := []
                      missing_interfaces_system :=
                        (analyze_missing_interfaces sys nps).1
                      missing_interfaces_netplan :=
                        (analyze_missing_interfaces sys nps).2 },
              ?_, ?_, ?_, ?_⟩
            · unfold get_diff
              rw [htr]
              dsimp only
              rw [hlk]
              dsimp only
              simp only [process_interfaces, if_pos hss]
              rfl
            · rw [hms]
            · rw [hmn]
            · rw [hint]
              have hsing : produceEntries ipm [(nm, cfg)] = some [] := by
                simp only [produceEntries, if_pos hss]
              exact (produceEntries_filter ipm _ es nm cfg [] hpr hkeys
                hmem hsing).symm
          · cases hid : truthyStr cfg.id with
            | none =>
                refine ⟨{ interfaces := []
                          missing_interfaces_system :=
                            (analyze_missing_interfaces sys nps).1
                          missing_interfaces_netplan :=
                            (analyze_missing_interfaces sys nps).2 },
                  ?_, ?_, ?_, ?_⟩
                · unfold get_diff
                  rw [htr]
                  dsimp only
                  rw [hlk]
                  dsimp only
                  simp only [process_interfaces, if_neg hss, hid]
                  rfl
                · rw [hms]
                · rw [hmn]
                · rw [hint]
                  have hsing : produceEntries ipm [(nm, cfg)]
                      = some [] := by
                    simp only [produceEntries, if_neg hss, hid]
                  exact (produceEntries_filter ipm _ es nm cfg [] hpr
                    hkeys hmem hsing).symm
            | some nid =>
                obtain ⟨d, hd⟩ :=
                  produceEntries_success ipm _ es hpr nm cfg hmem
                rcases hd with had | hbad
                · refine ⟨{ interfaces := [(nid, d)]
                            missing_interfaces_system :=
                              (analyze_missing_interfaces sys nps).1
                            missing_interfaces_netplan :=
                              (analyze_missing_interfaces sys nps).2 },
                    ?_, ?_, ?_, ?_⟩
                  · unfold get_diff
                    rw [htr]
                    dsimp only
                    rw [hlk]
                    dsimp only
                    simp only [process_interfaces, if_neg hss, hid, had,
                      Option.bind_eq_bind, Option.some_bind]
                    rfl
                  · rw [hms]
                  · rw [hmn]
                  · rw [hint]
                    have hsing : produceEntries ipm [(nm, cfg)]
                        = some [(nid, d)] := by
                      simp only [produceEntries, if_neg hss, hid, had]
                    exact (produceEntries_filter ipm _ es nm cfg
                      [(nid, d)] hpr hkeys hmem hsing).symm
                · rcases hbad with hc | hc
                  · exact absurd hc hss
                  · rw [hid] at hc
                    exact absurd hc (by simp)

/-- Witness for C9 on the snapshots `exSys`/`exNps` with the filter name
`eth0` (the matched interface). -/
theorem C9_filter_frame_witness :
    ∃ rep', get_diff testIpm exSys exNps (some "eth0") = some rep' ∧
      rep'.missing_interfaces_system = exRep.missing_interfaces_system ∧
      rep'.missing_interfaces_netplan = exRep.missing_interfaces_netplan ∧
      rep'.interfaces
        = exRep.interfaces.filter (fun p => (p.2).name = "eth0") :=
  C9_filter_frame testIpm exSys exNps "eth0" exRep (by decide) (by decide)
    (by rfl)

end NetplanDiff
